import Mathlib

/-!
Verification of the protocol/connection core of the UnrealBlueprintMCP plugin
(`Source/UnrealBlueprintMCP/Private/MCPClient.cpp`).

The development shallowly embeds the client: Unreal's JSON library
(`FJsonObject` / `FJsonValue` / `FJsonSerializer` with condensed output) is
modelled by an executable `Json` value type with a serializer and a fuel-based
recursive-descent parser; `TMap<FString, T>` is modelled by an association list
with in-place-replacing insert; the client object (`UMCPClient`) is modelled by
a record `MCPClientState`, and each C++ member function by a Lean function on
that record.  Known simplifications, none of which any theorem below depends
on: numbers are kept as their source lexeme instead of a binary double,
serializer output is condensed where Unreal's default writer pretty-prints
(all payload comparisons are structural, after re-parsing), `\uXXXX` string
escapes are not modelled, and FString comparison is modelled case-sensitively.
-/

namespace MCP

/-- JSON values, as produced by Unreal's `FJsonValue` hierarchy.  A number is
kept as its source lexeme; an object is an insertion-ordered association list
(`FJsonObject::Values : TMap<FString, TSharedPtr<FJsonValue>>`). -/
inductive Json where
  | null
  | bool (b : Bool)
  | num (lexeme : String)
  | str (s : String)
  | arr (elems : List Json)
  | obj (fields : List (String × Json))

/-- `TMap::Find` for string-keyed maps: first (unique) matching entry. -/
def tmapFind : List (String × α) → String → Option α
  | [], _ => none
  | (k0, v0) :: t, k => if k0 = k then some v0 else tmapFind t k

/-- The key is absent from the association list. -/
def keyFree (k : String) : List (String × α) → Bool
  | [] => true
  | (k0, _) :: t => (k0 != k) && keyFree k t

/-- All keys distinct — the invariant a `TMap` maintains. -/
def keysDistinct : List (String × α) → Bool
  | [] => true
  | (k0, _) :: t => keyFree k0 t && keysDistinct t

/-- `TMap::Add`: replace the value in place when the key exists, else append. -/
def tmapAdd : List (String × α) → String → α → List (String × α)
  | [], k, v => [(k, v)]
  | (k0, v0) :: t, k, v => if k0 = k then (k0, v) :: t else (k0, v0) :: tmapAdd t k v

/-- `TMap::Remove`: drop the (unique) entry with the given key. -/
def tmapRemove : List (String × α) → String → List (String × α)
  | [], _ => []
  | (k0, v0) :: t, k => if k0 = k then t else (k0, v0) :: tmapRemove t k

/-! ## Serializer (`FJsonSerializer::Serialize` with a condensed writer) -/

/-- JSON escape of one character, as the writer emits it. -/
def jEscChar (c : Char) : List Char :=
  if c = '"' then ['\\', '"']
  else if c = '\\' then ['\\', '\\']
  else if c = '\n' then ['\\', 'n']
  else if c = '\r' then ['\\', 'r']
  else if c = '\t' then ['\\', 't']
  else if c = '\x08' then ['\\', 'b']
  else if c = '\x0c' then ['\\', 'f']
  else [c]

/-- JSON escape of a character sequence. -/
def jEscStr : List Char → List Char
  | [] => []
  | c :: cs => jEscChar c ++ jEscStr cs

/-- A quoted, escaped JSON string literal. -/
def serStrQ (s : String) : List Char :=
  '"' :: (jEscStr s.data ++ ['"'])

mutual

/-- Serialize a value to characters (no inter-token whitespace). -/
def serJL : Json → List Char
  | .null => 'n' :: ['u', 'l', 'l']
  | .bool true => 't' :: ['r', 'u', 'e']
  | .bool false => 'f' :: ['a', 'l', 's', 'e']
  | .num lx => lx.data
  | .str s => serStrQ s
  | .arr es => '[' :: (serList es ++ [']'])
  | .obj ms => '\x7b' :: (serMems ms ++ ['\x7d'])

/-- Array elements: first element, then comma-led tail. -/
def serList : List Json → List Char
  | [] => []
  | e :: es => serJL e ++ serListT es

/-- Comma-led tail of array elements. -/
def serListT : List Json → List Char
  | [] => []
  | e :: es => ',' :: (serJL e ++ serListT es)

/-- Object members: first member, then comma-led tail. -/
def serMems : List (String × Json) → List Char
  | [] => []
  | (k, v) :: ms => serStrQ k ++ ':' :: (serJL v ++ serMemsT ms)

/-- Comma-led tail of object members. -/
def serMemsT : List (String × Json) → List Char
  | [] => []
  | (k, v) :: ms => ',' :: (serStrQ k ++ ':' :: (serJL v ++ serMemsT ms))

end

/-- Serialize a value to a string. -/
def serJson (j : Json) : String := String.mk (serJL j)

/-! ## Parser (`FJsonSerializer::Deserialize` via `TJsonReader`) -/

def jIsWs (c : Char) : Bool := c == ' ' || c == '\t' || c == '\n' || c == '\r'

def jIsDigit (c : Char) : Bool := 48 ≤ c.toNat && c.toNat ≤ 57

/-- Characters the reader's number token may contain. -/
def jIsNumCh (c : Char) : Bool :=
  jIsDigit c || c == '-' || c == '+' || c == '.' || c == 'e' || c == 'E'

def jskipWs : List Char → List Char
  | [] => []
  | c :: cs => if jIsWs c then jskipWs cs else c :: cs

/-- Longest leading run of number-token characters, plus the remainder. -/
def jTakeNum : List Char → List Char × List Char
  | [] => ([], [])
  | c :: cs =>
    if jIsNumCh c then
      let p := jTakeNum cs
      (c :: p.1, p.2)
    else ([], c :: cs)

/-- A remainder that cannot extend a number token: empty, or starting with a
character outside the number-token set. -/
def jNumDelim : List Char → Bool
  | [] => true
  | c :: _ => !jIsNumCh c

/-- Inverse of `jEscChar` on escape codes the reader accepts. -/
def jUnesc (c : Char) : Option Char :=
  if c = '"' then some '"'
  else if c = '\\' then some '\\'
  else if c = '/' then some '/'
  else if c = 'n' then some '\n'
  else if c = 'r' then some '\r'
  else if c = 't' then some '\t'
  else if c = 'b' then some '\x08'
  else if c = 'f' then some '\x0c'
  else none

/-- String body after the opening quote: unescape until the closing quote. -/
def parseJStrA : List Char → List Char → Option (String × List Char)
  | acc, '"' :: rest => some (String.mk acc.reverse, rest)
  | acc, '\\' :: e :: rest =>
    match jUnesc e with
    | some d => parseJStrA (d :: acc) rest
    | none => none
  | acc, c :: rest => parseJStrA (c :: acc) rest
  | _, [] => none

/-- Build an object from parsed members via `TMap::Add` (a duplicate key keeps
its first position and takes the last value, as Unreal's `SetField` does). -/
def mkObjAux (acc : List (String × Json)) : List (String × Json) → List (String × Json)
  | [] => acc
  | (k, v) :: ms => mkObjAux (tmapAdd acc k v) ms

mutual

/-- Parse one JSON value.  `fuel` only bounds recursion depth; the top-level
entry point supplies more fuel than any input can consume. -/
def parseJV : Nat → List Char → Option (Json × List Char)
  | 0, _ => none
  | f + 1, cs =>
    match jskipWs cs with
    | 'n' :: 'u' :: 'l' :: 'l' :: r => some (.null, r)
    | 't' :: 'r' :: 'u' :: 'e' :: r => some (.bool true, r)
    | 'f' :: 'a' :: 'l' :: 's' :: 'e' :: r => some (.bool false, r)
    | '"' :: r =>
      (match parseJStrA [] r with
       | some (s, r1) => some (.str s, r1)
       | none => none)
    | '[' :: r =>
      (match jskipWs r with
       | ']' :: r1 => some (.arr [], r1)
       | cs1 =>
         match parseJList f cs1 with
         | some (es, r1) => some (.arr es, r1)
         | none => none)
    | '\x7b' :: r =>
      (match jskipWs r with
       | '\x7d' :: r1 => some (.obj [], r1)
       | cs1 =>
         match parseJMems f cs1 with
         | some (ms, r1) => some (.obj (mkObjAux [] ms), r1)
         | none => none)
    | c :: r =>
      if jIsDigit c || c = '-' then
        let p := jTakeNum (c :: r)
        some (.num (String.mk p.1), p.2)
      else none
    | [] => none

/-- One-or-more comma-separated array elements, ending at `]`. -/
def parseJList : Nat → List Char → Option (List Json × List Char)
  | 0, _ => none
  | f + 1, cs =>
    match parseJV f cs with
    | none => none
    | some (v, r) =>
      match jskipWs r with
      | ',' :: r1 =>
        (match parseJList f r1 with
         | some (vs, r2) => some (v :: vs, r2)
         | none => none)
      | ']' :: r1 => some ([v], r1)
      | _ => none

/-- One-or-more `"key": value` members, ending at the closing brace. -/
def parseJMems : Nat → List Char → Option (List (String × Json) × List Char)
  | 0, _ => none
  | f + 1, cs =>
    match jskipWs cs with
    | '"' :: r =>
      (match parseJStrA [] r with
       | none => none
       | some (k, r1) =>
         match jskipWs r1 with
         | ':' :: r2 =>
           (match parseJV f r2 with
            | none => none
            | some (v, r3) =>
              match jskipWs r3 with
              | ',' :: r4 =>
                (match parseJMems f r4 with
                 | some (ms, r5) => some ((k, v) :: ms, r5)
                 | none => none)
              | '\x7d' :: r4 => some ([(k, v)], r4)
              | _ => none)
         | _ => none)
    | _ => none

end

/-- Parse a complete JSON text: one value, then only whitespace. -/
def parseJsonText (s : String) : Option Json :=
  match parseJV (s.data.length + 1) s.data with
  | some (j, r) => if jskipWs r = [] then some j else none
  | none => none

/-- `FJsonSerializer::Deserialize` into a `TSharedPtr<FJsonObject>`: succeeds
only when the root is an object. -/
def deserializeObject (s : String) : Option (List (String × Json)) :=
  match parseJsonText s with
  | some (.obj ms) => some ms
  | _ => none

/-- `FJsonSerializer::Deserialize` into a `TSharedPtr<FJsonValue>`: the reader
accepts only an object or an array at the root. -/
def deserializeValue (s : String) : Option Json :=
  match parseJsonText s with
  | some (.obj ms) => some (.obj ms)
  | some (.arr es) => some (.arr es)
  | _ => none

/-- Structural JSON equality after re-parsing (spec §8): two stored payload
strings agree when both parse to the same value, or neither parses and they
are the same raw string. -/
def jsonSemEq (a b : String) : Prop :=
  match parseJsonText a, parseJsonText b with
  | some x, some y => x = y
  | none, none => a = b
  | _, _ => False

/-! ## `FJsonValue` string accessors -/

/-- `FJsonValue::TryGetString`: strings, numbers (their decimal form — here the
lexeme) and booleans convert; null, arrays and objects fail. -/
def jTryGetString : Json → Option String
  | .str s => some s
  | .num lx => some lx
  | .bool b => some (if b then "true" else "false")
  | _ => none

/-- `FJsonValue::AsString`: `TryGetString` or, with a logged error, empty. -/
def jAsString (v : Json) : String := (jTryGetString v).getD ""

/-- `FJsonObject::TryGetStringField`. -/
def tryGetStringField (ms : List (String × Json)) (k : String) : Option String :=
  match tmapFind ms k with
  | some v => jTryGetString v
  | none => none

/-- `FJsonObject::HasField` (a null field still counts as present). -/
def hasField (ms : List (String × Json)) (k : String) : Bool :=
  (tmapFind ms k).isSome

/-! ## Well-formed values

`Json.wfb` characterizes exactly the values the parser can produce: number
lexemes are nonempty runs of number-token characters starting with a digit or
minus, and object keys are distinct.  Serializing such a value and re-parsing
recovers it (the codec round-trip below needs nothing more). -/

/-- A number lexeme the parser could have produced. -/
def jNumWf (lx : String) : Bool :=
  match lx.data with
  | [] => false
  | c :: cs => (jIsDigit c || c == '-') && (c :: cs).all jIsNumCh

mutual

/-- Parser-producible values (see section comment). -/
def Json.wfb : Json → Bool
  | .null => true
  | .bool _ => true
  | .str _ => true
  | .num lx => jNumWf lx
  | .arr es => jWfList es
  | .obj ms => jWfMems ms

/-- `Json.wfb` on every element. -/
def jWfList : List Json → Bool
  | [] => true
  | e :: es => e.wfb && jWfList es

/-- Distinct keys and `Json.wfb` on every value. -/
def jWfMems : List (String × Json) → Bool
  | [] => true
  | (k, v) :: ms => keyFree k ms && v.wfb && jWfMems ms

end

/-! ## The MCP message (`FMCPMessage`, MCPClient.h)

The C++ struct's `Timestamp` field is informational only (spec §3: not part of
wire identity; `CreateJsonFromMCPMessage` never serializes it) and is omitted.
The C++ field `Type` is `MsgType` here (`Type` is reserved in Lean). -/

structure FMCPMessage where
  Id : String := ""
  MsgType : String := ""
  Method : String := ""
  Params : String := ""
  Result : String := ""
  Error : String := ""
deriving DecidableEq, Repr

/-! ## Message codec (`ParseMCPMessage` / `CreateJsonFromMCPMessage`) -/

/-- `ParseMCPMessage` (MCPClient.cpp:626): deserialize the text into a JSON
object, classify the message from its fields, and store each payload as a
string — objects (and, for `result`, arrays) re-serialized, strings as-is. -/
def ParseMCPMessage (raw : String) : Option FMCPMessage :=
  match deserializeObject raw with
  | none => none
  | some ms =>
    let id := (tryGetStringField ms "id").getD ""
    let method := (tryGetStringField ms "method").getD ""
    let mtype :=
      if hasField ms "method" then (if id ≠ "" then "request" else "notification")
      else if hasField ms "result" || hasField ms "error" then "response"
      else "unknown"
    let params :=
      match tmapFind ms "params" with
      | some (.obj o) => serJson (.obj o)
      | some (.str s) => s
      | _ => ""
    let result :=
      match tmapFind ms "result" with
      | some (.obj o) => serJson (.obj o)
      | some (.arr a) => serJson (.arr a)
      | some v => jAsString v
      | none => ""
    let error :=
      match tmapFind ms "error" with
      | some (.obj o) => serJson (.obj o)
      | some v => jAsString v
      | none => ""
    some { Id := id, MsgType := mtype, Method := method, Params := params,
           Result := result, Error := error }

/-- A valid message per the spec's data model (§3): its kind is `request`,
`response` or `notification` and the fields present match that kind —
`request`: id and method; `notification`: method, no id; `response`: id and
exactly one of result/error; a method-bearing message carries no
result/error payload. -/
def validMessage (m : FMCPMessage) : Prop :=
  (m.MsgType = "request" ∧ m.Id ≠ "" ∧ m.Method ≠ "" ∧ m.Result = "" ∧ m.Error = "")
  ∨ (m.MsgType = "notification" ∧ m.Id = "" ∧ m.Method ≠ "" ∧ m.Result = "" ∧ m.Error = "")
  ∨ (m.MsgType = "response" ∧ m.Id ≠ "" ∧ m.Method = "" ∧ m.Params = ""
      ∧ ((m.Result ≠ "" ∧ m.Error = "") ∨ (m.Result = "" ∧ m.Error ≠ "")))

instance (m : FMCPMessage) : Decidable (validMessage m) := by
  unfold validMessage
  infer_instance

/-- The kind classification stated independently over the wire object (C5 as
amended): a method field with a nonempty extracted id string is a `request`;
a method field otherwise a `notification`; else result-or-error means
`response`; else `unknown`. -/
def classifyKindSpec (ms : List (String × Json)) : String :=
  if hasField ms "method" then
    if (tryGetStringField ms "id").getD "" ≠ "" then "request" else "notification"
  else if hasField ms "result" || hasField ms "error" then "response"
  else "unknown"

/-- The `params` value chosen by `CreateJsonFromMCPMessage`: parsed as a JSON
object when possible, otherwise kept as a plain string. -/
def paramsVal (m : FMCPMessage) : Json :=
  match deserializeObject m.Params with
  | some po => .obj po
  | none => .str m.Params

/-- The `result` value chosen by `CreateJsonFromMCPMessage`: any JSON value the
reader accepts (object or array root), otherwise a plain string. -/
def resultVal (m : FMCPMessage) : Json :=
  match deserializeValue m.Result with
  | some rv => rv
  | none => .str m.Result

/-- The `error` value chosen by `CreateJsonFromMCPMessage`: parsed as a JSON
object when possible, otherwise kept as a plain string. -/
def errorVal (m : FMCPMessage) : Json :=
  match deserializeObject m.Error with
  | some eo => .obj eo
  | none => .str m.Error

/-- The field list `CreateJsonFromMCPMessage` builds by successive `SetField`
calls: protocol version always, each remaining field only when nonempty. -/
def encodeMCPFields (m : FMCPMessage) : List (String × Json) :=
  let ms : List (String × Json) := tmapAdd [] "jsonrpc" (.str "2.0")
  let ms := if m.Id ≠ "" then tmapAdd ms "id" (.str m.Id) else ms
  let ms := if m.Method ≠ "" then tmapAdd ms "method" (.str m.Method) else ms
  let ms := if m.Params ≠ "" then tmapAdd ms "params" (paramsVal m) else ms
  let ms := if m.Result ≠ "" then tmapAdd ms "result" (resultVal m) else ms
  let ms := if m.Error ≠ "" then tmapAdd ms "error" (errorVal m) else ms
  ms

/-- `CreateJsonFromMCPMessage` (MCPClient.cpp:719). -/
def CreateJsonFromMCPMessage (m : FMCPMessage) : String :=
  serJson (.obj (encodeMCPFields m))

/-! ## Command dispatcher (`ProcessBlueprintCommand`, MCPClient.cpp:917) -/

/-- The external executor (`UMCPBlueprintManager`), §6's command collaborator:
one handler per command, each a pure payload-to-payload function here. -/
structure MCPBlueprintManagerModel where
  processCreateBlueprint : String → String
  processSetProperty : String → String
  processAddComponent : String → String
  processCompileBlueprint : String → String
  processGetServerStatus : String → String

/-- `ProcessBlueprintCommand`: route the method to its handler; without a
manager, or for an unknown method, return a literal failure payload. -/
def ProcessBlueprintCommand (mgr : Option MCPBlueprintManagerModel)
    (method params : String) : String :=
  match mgr with
  | none => "\x7b\"success\":false,\"error\":\"Blueprint Manager not initialized\"\x7d"
  | some bm =>
    if method = "create_blueprint" then bm.processCreateBlueprint params
    else if method = "set_property" ∨ method = "set_blueprint_property" then
      bm.processSetProperty params
    else if method = "add_component" then bm.processAddComponent params
    else if method = "compile_blueprint" then bm.processCompileBlueprint params
    else if method = "get_server_status" then bm.processGetServerStatus params
    else
      "\x7b\"success\":false,\"error\":\"Unknown blueprint command: " ++ method ++ "\"\x7d"

/-! ## Connection state machine (`UMCPClient`) -/

/-- `EMCPConnectionState` (MCPSettings.h). -/
inductive EMCPConnectionState where
  | Disconnected
  | Connecting
  | Connected
  | Failed
  | Disabled
deriving DecidableEq, Repr

/-- `UMCPClient::MaxReconnectAttempts` (MCPClient.h:395). -/
def maxReconnectAttempts : Nat := 10

/-- The client's mutable state.  `webSocket` is `WebSocket.IsValid()`;
`autoReconnectTimer` holds the delay (in whole seconds — every delay the code
computes is integral) of the pending one-shot timer, if any; `worldAvailable`
models `GEngine` plus a world context being reachable for the timer manager;
`hasSettings`/`settingsValid` model `MCPSettings != nullptr` and
`ValidateConnectionSettings()`. -/
structure MCPClientState where
  currentConnectionState : EMCPConnectionState := .Disconnected
  lastErrorMessage : String := ""
  bAutoReconnectEnabled : Bool := true
  reconnectAttempts : Nat := 0
  autoReconnectTimer : Option Nat := none
  webSocket : Bool := false
  pendingRequests : List (String × FMCPMessage) := []
  requestIdCounter : Nat := 0
  hasSettings : Bool := true
  settingsValid : Bool := true
  worldAvailable : Bool := true
deriving DecidableEq, Repr

/-- `SetConnectionState` (MCPClient.cpp:418): on an actual change, update the
state and record a nonempty error message; a no-op change does nothing. -/
def setConnectionState (c : MCPClientState) (newState : EMCPConnectionState)
    (errorMessage : String := "") : MCPClientState :=
  if c.currentConnectionState = newState then c
  else { c with currentConnectionState := newState,
                lastErrorMessage :=
                  if errorMessage = "" then c.lastErrorMessage else errorMessage }

/-- The delay `StartAutoReconnectTimer` computes (MCPClient.cpp:469):
`FMath::Min(BaseReconnectDelay * FMath::Pow(2.0f, ReconnectAttempts),
MaxReconnectDelay)` with base 2s and max 60s — exact in these integers for
every attempt count (beyond the cap the float only grows). -/
def reconnectDelaySeconds (attempts : Nat) : Nat :=
  min (2 * 2 ^ attempts) 60

/-- `StartAutoReconnectTimer` (MCPClient.cpp:455): with auto-reconnect on and
a world available, (re)arm the single reconnect timer with the backoff delay
for the current attempt counter. -/
def startAutoReconnectTimer (c : MCPClientState) : MCPClientState :=
  if ¬ c.bAutoReconnectEnabled ∨ ¬ c.worldAvailable then c
  else { c with autoReconnectTimer := some (reconnectDelaySeconds c.reconnectAttempts) }

/-- `StopAutoReconnectTimer` (MCPClient.cpp:477). -/
def stopAutoReconnectTimer (c : MCPClientState) : MCPClientState :=
  if c.worldAvailable then { c with autoReconnectTimer := none } else c

/-- `OnWebSocketConnected` (MCPClient.cpp:342). -/
def onWebSocketConnected (c : MCPClientState) : MCPClientState :=
  let c1 := setConnectionState c .Connected
  { c1 with reconnectAttempts := 0 }

/-- `OnWebSocketConnectionError` (MCPClient.cpp:356). -/
def onWebSocketConnectionError (c : MCPClientState) (error : String) : MCPClientState :=
  let c1 := setConnectionState c .Failed error
  if c1.bAutoReconnectEnabled ∧ c1.reconnectAttempts < maxReconnectAttempts then
    startAutoReconnectTimer c1
  else c1

/-- `OnWebSocketClosed` (MCPClient.cpp:369): drop the socket; unless already
`Disconnected`, move to `Disconnected` (clean) or `Failed` (unclean), and on an
unclean close schedule a reconnect when enabled and under the attempt cap.
Pending requests are not touched. -/
def onWebSocketClosed (c : MCPClientState) (reason : String) (bWasClean : Bool) :
    MCPClientState :=
  let c1 := { c with webSocket := false }
  if c1.currentConnectionState = .Disconnected then c1
  else
    let c2 := setConnectionState c1 (if bWasClean then .Disconnected else .Failed) reason
    if ¬ bWasClean ∧ c2.bAutoReconnectEnabled ∧ c2.reconnectAttempts < maxReconnectAttempts
    then startAutoReconnectTimer c2
    else c2

/-- `Connect` (MCPClient.cpp:120): no-op success when already connected or
connecting; invalid settings fail into `Failed`; otherwise create the socket
if needed, enter `Connecting`, and start the transport open. -/
def connect (c : MCPClientState) : MCPClientState × Bool :=
  if ¬ c.hasSettings then (c, false)
  else if c.currentConnectionState = .Connected ∨
          c.currentConnectionState = .Connecting then (c, true)
  else if ¬ c.settingsValid then
    (setConnectionState c .Failed "Invalid connection settings", false)
  else
    let c1 := if c.webSocket then c else { c with webSocket := true }
    (setConnectionState c1 .Connecting, true)

/-- `Disconnect` (MCPClient.cpp:178): cancel the reconnect timer, close and
drop the socket (after a best-effort `session/end` notification when graceful
and connected — a wire write with no effect on this state), clear all pending
requests, enter `Disconnected`, reset the attempt counter. -/
def disconnect (c : MCPClientState) (_bGraceful : Bool) : MCPClientState :=
  let c1 := stopAutoReconnectTimer c
  let c2 := if c1.webSocket then { c1 with webSocket := false } else c1
  let c3 := { c2 with pendingRequests := [] }
  let c4 := setConnectionState c3 .Disconnected
  { c4 with reconnectAttempts := 0 }

/-- `AttemptReconnect` (MCPClient.cpp:488): the timer callback.  Already
connected/connecting: nothing.  At or over the attempt cap: move to `Failed`
and give up (no new timer).  Otherwise count the attempt, try `Connect`, and
re-arm the timer if that immediately fails. -/
def attemptReconnect (c : MCPClientState) : MCPClientState :=
  if c.currentConnectionState = .Connected ∨
     c.currentConnectionState = .Connecting then c
  else if maxReconnectAttempts ≤ c.reconnectAttempts then
    setConnectionState c .Failed "Maximum reconnection attempts reached"
  else
    let c1 := { c with reconnectAttempts := c.reconnectAttempts + 1 }
    let p := connect c1
    if p.2 then p.1 else startAutoReconnectTimer p.1

/-- The reconnect timer firing: consume the pending timer, then run
`AttemptReconnect`; with no timer pending nothing happens. -/
def timerFires (c : MCPClientState) : MCPClientState :=
  match c.autoReconnectTimer with
  | none => c
  | some _ => attemptReconnect { c with autoReconnectTimer := none }

/-- The terminal failure configuration of C7: `Failed`, the attempt counter at
or beyond `MaxReconnectAttempts`, and no reconnect timer armed. -/
def terminalFailed (c : MCPClientState) : Prop :=
  c.currentConnectionState = .Failed ∧ c.autoReconnectTimer = none ∧
    maxReconnectAttempts ≤ c.reconnectAttempts

instance (c : MCPClientState) : Decidable (terminalFailed c) := by
  unfold terminalFailed
  infer_instance

/-! ## Sending (`SendRequest` / `SendRawMessage`) -/

/-- Whether `SendRawMessage` (MCPClient.cpp:283) succeeds: a valid socket in
the `Connected` state (the write itself is fire-and-forget). -/
def sendRawMessageOk (c : MCPClientState) : Bool :=
  c.webSocket && c.currentConnectionState == .Connected

/-- `GenerateRequestId` (MCPClient.cpp:798): bump the counter and build
`req_<counter>_<token>`; `tok` stands for the fresh short GUID. -/
def generateRequestId (c : MCPClientState) (tok : String) : MCPClientState × String :=
  let n := c.requestIdCounter + 1
  ({ c with requestIdCounter := n }, "req_" ++ toString n ++ "_" ++ tok)

/-- `SendRequest` (MCPClient.cpp:217): refuse when not connected; choose the
caller's id or generate one; provisionally register the pending request; on a
failed raw send, remove that id again and return empty, else return the id. -/
def sendRequest (c : MCPClientState) (method params requestId tok : String) :
    MCPClientState × String :=
  if c.currentConnectionState ≠ .Connected then (c, "")
  else
    let p := if requestId = "" then generateRequestId c tok else (c, requestId)
    let c1 := p.1
    let actualId := p.2
    let msg : FMCPMessage :=
      { Id := actualId, MsgType := "request", Method := method, Params := params }
    let c2 := { c1 with pendingRequests := tmapAdd c1.pendingRequests actualId msg }
    if sendRawMessageOk c2 then (c2, actualId)
    else ({ c2 with pendingRequests := tmapRemove c2.pendingRequests actualId }, "")

/-! ## Request tracker contract (§4.2)

The tracker is the `PendingRequests` map together with the two access patterns
the client uses: `SendRequest` registers (MCPClient.cpp:232), and the response
path in `ProcessIncomingMessage` resolves — find, copy out, remove, all under
the same lock (MCPClient.cpp:554). -/

/-- `register(id, …)`: store the in-flight request under its id. -/
def registerPending (m : List (String × FMCPMessage)) (id : String)
    (msg : FMCPMessage) : List (String × FMCPMessage) :=
  tmapAdd m id msg

/-- `resolve(id)`: atomically remove and return the entry, or NotFound. -/
def resolvePending (m : List (String × FMCPMessage)) (id : String) :
    Option FMCPMessage × List (String × FMCPMessage) :=
  match tmapFind m id with
  | some found => (some found, tmapRemove m id)
  | none => (none, m)

/-! ## Inbound routing (`ProcessIncomingMessage`, MCPClient.cpp:533) -/

/-- The six methods the inbound command router recognizes (MCPClient.cpp:580). -/
def blueprintCommandMethods : List String :=
  ["create_blueprint", "set_property", "set_blueprint_property",
   "add_component", "compile_blueprint", "get_server_status"]

/-- The JSON-RPC 2.0 response `ProcessIncomingMessage` builds for a handled
command (MCPClient.cpp:594): version, originating id, and the handler payload
as a `result` object when it parses, else as a string. -/
def buildCommandResponse (id response : String) : String :=
  let ro := tmapAdd (tmapAdd ([] : List (String × Json)) "jsonrpc" (.str "2.0"))
      "id" (.str id)
  let ro :=
    match deserializeObject response with
    | some rv => tmapAdd ro "result" (.obj rv)
    | none => tmapAdd ro "result" (.str response)
  serJson (.obj ro)

/-- Externally visible effects of one inbound message: the
`OnOperationComplete` broadcast (id, success, payload), the command handed to
`ProcessBlueprintCommand`, and the wire response actually sent. -/
structure IncomingEffects where
  operationComplete : Option (String × Bool × String) := none
  dispatchedCommand : Option (String × String) := none
  responseSent : Option String := none
deriving DecidableEq, Repr

/-- `ProcessIncomingMessage`: drop undecodable text; resolve a correlated
response id against the pending map and broadcast completion once; dispatch a
known blueprint command when the message is a request (method with id), and
send the wrapped result back only when the message carried an id. -/
def processIncomingMessage (c : MCPClientState) (mgr : Option MCPBlueprintManagerModel)
    (raw : String) : MCPClientState × IncomingEffects :=
  match ParseMCPMessage raw with
  | none => (c, {})
  | some msg =>
    let found :=
      if msg.MsgType = "response" ∧ msg.Id ≠ "" then tmapFind c.pendingRequests msg.Id
      else none
    let c1 :=
      match found with
      | some _ => { c with pendingRequests := tmapRemove c.pendingRequests msg.Id }
      | none => c
    let opComplete :=
      match found with
      | some _ =>
        some (msg.Id, msg.Error = "", if msg.Error = "" then msg.Result else msg.Error)
      | none => none
    let isCommand :=
      msg.MsgType = "request" ∧ msg.Method ≠ "" ∧ msg.Method ∈ blueprintCommandMethods
    let dispatched :=
      if isCommand then some (msg.Method, msg.Params) else none
    let sent :=
      if isCommand ∧ msg.Id ≠ "" ∧ sendRawMessageOk c1 = true then
        some (buildCommandResponse msg.Id (ProcessBlueprintCommand mgr msg.Method msg.Params))
      else none
    (c1, { operationComplete := opComplete, dispatchedCommand := dispatched,
           responseSent := sent })

/-! # Theorems

First the library-level facts: the association-list model of `TMap`, then the
codec round-trip for the JSON layer, then the message codec, and finally the
claim theorems. -/

/-! ## Association-list (`TMap`) lemmas -/

theorem tmapFind_add_self (l : List (String × α)) (k : String) (v : α) :
    tmapFind (tmapAdd l k v) k = some v := by
  induction l with
  | nil => simp [tmapAdd, tmapFind]
  | cons hd t ih =>
    obtain ⟨k0, v0⟩ := hd
    by_cases hk : k0 = k
    · simp [tmapAdd, hk, tmapFind]
    · simp [tmapAdd, hk, tmapFind, ih]

theorem keyFree_find_none {k : String} {l : List (String × α)}
    (h : keyFree k l = true) : tmapFind l k = none := by
  induction l with
  | nil => rfl
  | cons hd t ih =>
    obtain ⟨k0, v0⟩ := hd
    simp only [keyFree, Bool.and_eq_true, bne_iff_ne] at h
    simp [tmapFind, h.1, ih h.2]

theorem keyFree_tmapAdd {k0 k : String} {l : List (String × α)} {v : α}
    (h : keyFree k0 l = true) (hne : k0 ≠ k) : keyFree k0 (tmapAdd l k v) = true := by
  induction l with
  | nil => simp [tmapAdd, keyFree, Ne.symm hne]
  | cons hd t ih =>
    obtain ⟨k1, v1⟩ := hd
    simp only [keyFree, Bool.and_eq_true, bne_iff_ne] at h
    by_cases hk : k1 = k
    · simp [tmapAdd, hk, keyFree, h.1, h.2, hk ▸ h.1]
    · simp [tmapAdd, hk, keyFree, h.1, ih h.2]

theorem keysDistinct_tmapAdd {l : List (String × α)} {k : String} {v : α}
    (h : keysDistinct l = true) : keysDistinct (tmapAdd l k v) = true := by
  induction l with
  | nil => simp [tmapAdd, keysDistinct, keyFree]
  | cons hd t ih =>
    obtain ⟨k0, v0⟩ := hd
    simp only [keysDistinct, Bool.and_eq_true] at h
    by_cases hk : k0 = k
    · simp [tmapAdd, hk, keysDistinct, hk ▸ h.1, h.2]
    · simp [tmapAdd, hk, keysDistinct, keyFree_tmapAdd h.1 hk, ih h.2]

theorem tmapAdd_keyFree {k : String} {l : List (String × α)} {v : α}
    (h : keyFree k l = true) : tmapAdd l k v = l ++ [(k, v)] := by
  induction l with
  | nil => rfl
  | cons hd t ih =>
    obtain ⟨k0, v0⟩ := hd
    simp only [keyFree, Bool.and_eq_true, bne_iff_ne] at h
    simp [tmapAdd, h.1, ih h.2]

theorem tmapFind_remove_self {l : List (String × α)} {k : String}
    (h : keysDistinct l = true) : tmapFind (tmapRemove l k) k = none := by
  induction l with
  | nil => rfl
  | cons hd t ih =>
    obtain ⟨k0, v0⟩ := hd
    simp only [keysDistinct, Bool.and_eq_true] at h
    by_cases hk : k0 = k
    · simpa [tmapRemove, hk] using keyFree_find_none (hk ▸ h.1)
    · simp [tmapRemove, hk, tmapFind, ih h.2]

theorem tmapFind_append (l1 l2 : List (String × α)) (k : String) :
    tmapFind (l1 ++ l2) k =
      match tmapFind l1 k with
      | some v => some v
      | none => tmapFind l2 k := by
  induction l1 with
  | nil => rfl
  | cons hd t ih =>
    obtain ⟨k0, v0⟩ := hd
    by_cases hk : k0 = k
    · simp [tmapFind, hk]
    · simp [tmapFind, hk, ih]

theorem tmapFind_ifPart_ne {k1 k : String} (hne : k1 ≠ k) (c : Prop) [Decidable c]
    (v : α) (l : List (String × α)) :
    tmapFind ((if c then [(k1, v)] else []) ++ l) k = tmapFind l k := by
  by_cases hc : c <;> simp [hc, tmapFind, hne]

theorem tmapFind_ifPart_self (k : String) (c : Prop) [Decidable c]
    (v : α) (l : List (String × α)) :
    tmapFind ((if c then [(k, v)] else []) ++ l) k =
      if c then some v else tmapFind l k := by
  by_cases hc : c <;> simp [hc, tmapFind]

/-! ## Character classes -/

theorem char_ne_of_toNat {c d : Char} (h : c.toNat ≠ d.toNat) : c ≠ d :=
  fun e => h (e ▸ rfl)

theorem jIsDigit_toNat {c : Char} (h : jIsDigit c = true) :
    48 ≤ c.toNat ∧ c.toNat ≤ 57 := by
  simpa [jIsDigit] using h

theorem numStart_toNat {c : Char} (h : (jIsDigit c || c == '-') = true) :
    (48 ≤ c.toNat ∧ c.toNat ≤ 57) ∨ c.toNat = 45 := by
  rcases Bool.or_eq_true_iff.mp h with hd | hm
  · exact .inl (jIsDigit_toNat hd)
  · exact .inr (by rw [show c = '-' from beq_iff_eq.mp hm]; rfl)

theorem numStart_not_ws {c : Char} (h : (jIsDigit c || c == '-') = true) :
    jIsWs c = false := by
  rcases numStart_toNat h with ⟨h1, h2⟩ | h1 <;>
    · simp only [jIsWs, Bool.or_eq_false_iff, beq_eq_false_iff_ne]
      refine ⟨⟨⟨?_, ?_⟩, ?_⟩, ?_⟩ <;> exact char_ne_of_toNat (by simp_all <;> omega)

theorem numStart_not_brk {c : Char} (h : (jIsDigit c || c == '-') = true) :
    c ≠ ']' ∧ c ≠ '\x7d' ∧ c ≠ 'n' ∧ c ≠ 't' ∧ c ≠ 'f' ∧ c ≠ '"' ∧ c ≠ '[' ∧
      c ≠ '\x7b' := by
  rcases numStart_toNat h with ⟨h1, h2⟩ | h1 <;>
    · refine ⟨?_, ?_, ?_, ?_, ?_, ?_, ?_, ?_⟩ <;>
        exact char_ne_of_toNat (by simp_all <;> omega)

theorem numStart_numCh {c : Char} (h : (jIsDigit c || c == '-') = true) :
    jIsNumCh c = true := by
  rcases Bool.or_eq_true_iff.mp h with hd | hm
  · simp [jIsNumCh, hd]
  · simp [jIsNumCh, hm]

/-! ## String-literal codec -/

theorem jskipWs_not {c : Char} (cs : List Char) (h : jIsWs c = false) :
    jskipWs (c :: cs) = c :: cs := by
  simp [jskipWs, h]

theorem parseJStrA_esc (c : Char) (acc rest : List Char) :
    parseJStrA acc (jEscChar c ++ rest) = parseJStrA (c :: acc) rest := by
  by_cases h1 : c = '"'
  · subst h1; rfl
  by_cases h2 : c = '\\'
  · subst h2; rfl
  by_cases h3 : c = '\n'
  · subst h3; rfl
  by_cases h4 : c = '\r'
  · subst h4; rfl
  by_cases h5 : c = '\t'
  · subst h5; rfl
  by_cases h6 : c = '\x08'
  · subst h6; rfl
  by_cases h7 : c = '\x0c'
  · subst h7; rfl
  simp only [jEscChar, h1, h2, h3, h4, h5, h6, h7, if_false, List.cons_append,
    List.nil_append]
  rw [parseJStrA.eq_def]
  simp [h1, h2]

theorem parseJStrA_escStr (cs : List Char) : ∀ acc rest : List Char,
    parseJStrA acc (jEscStr cs ++ '"' :: rest) =
      some (String.mk (acc.reverse ++ cs), rest) := by
  induction cs with
  | nil => intro acc rest; simp [jEscStr, parseJStrA]
  | cons c cs ih =>
    intro acc rest
    rw [jEscStr, List.append_assoc, parseJStrA_esc, ih]
    simp

theorem parseJStr_ser (s : String) (rest : List Char) :
    parseJStrA [] (jEscStr s.data ++ '"' :: rest) = some (s, rest) := by
  rw [parseJStrA_escStr]
  rfl

/-! ## Number-token codec -/

theorem jTakeNum_stop {cs : List Char} (h : jNumDelim cs = true) :
    jTakeNum cs = ([], cs) := by
  match cs with
  | [] => rfl
  | c :: t =>
    simp only [jNumDelim, Bool.not_eq_true'] at h
    simp [jTakeNum, h]

theorem jTakeNum_run {ds : List Char} (hds : ∀ c ∈ ds, jIsNumCh c = true)
    {rest : List Char} (hrest : jNumDelim rest = true) :
    jTakeNum (ds ++ rest) = (ds, rest) := by
  induction ds with
  | nil => simpa using jTakeNum_stop hrest
  | cons c t ih =>
    have hc := hds c (by simp)
    have ht := ih (fun x hx => hds x (by simp [hx]))
    simp [jTakeNum, hc, ht]

theorem jTakeNum_all (cs : List Char) : ∀ c ∈ (jTakeNum cs).1, jIsNumCh c = true := by
  induction cs with
  | nil => simp [jTakeNum]
  | cons c t ih =>
    by_cases hc : jIsNumCh c = true
    · simp only [jTakeNum, hc, if_true]
      intro x hx
      rcases List.mem_cons.mp hx with rfl | hx2
      · exact hc
      · exact ih x hx2
    · simp [jTakeNum, hc]

/-! ## Serialized output starts with a committed token character -/

theorem serJL_head_aux {c : Char} {l t : List Char} (he : l = c :: t)
    (h : (jIsWs c = false ∧ c ≠ ']' ∧ c ≠ '\x7d')) :
    ∃ c0 t0, l = c0 :: t0 ∧ jIsWs c0 = false ∧ c0 ≠ ']' ∧ c0 ≠ '\x7d' :=
  ⟨c, t, he, h.1, h.2.1, h.2.2⟩

theorem serJL_head (j : Json) (hw : j.wfb = true) :
    ∃ c t, serJL j = c :: t ∧ jIsWs c = false ∧ c ≠ ']' ∧ c ≠ '\x7d' := by
  cases j with
  | num lx =>
    simp only [Json.wfb, jNumWf] at hw
    match hlx : lx.data with
    | [] => rw [hlx] at hw; simp at hw
    | c :: cs =>
      rw [hlx] at hw
      simp only [Bool.and_eq_true] at hw
      obtain ⟨h1, h2, -, -, -, -, -, -⟩ := numStart_not_brk hw.1
      exact ⟨c, cs, by simp [serJL, hlx], numStart_not_ws hw.1, h1, h2⟩
  | null => exact serJL_head_aux rfl (by decide)
  | str s => exact serJL_head_aux rfl (by decide)
  | arr es => exact serJL_head_aux rfl (by decide)
  | obj ms => exact serJL_head_aux rfl (by decide)
  | bool b => cases b <;> exact serJL_head_aux rfl (by decide)

theorem jskipWs_serJL (j : Json) (hw : j.wfb = true) (x : List Char) :
    jskipWs (serJL j ++ x) = serJL j ++ x := by
  obtain ⟨c, t, hser, hws, -, -⟩ := serJL_head j hw
  rw [hser, List.cons_append, jskipWs_not _ hws]

/-! ## Parser branch lemmas -/

theorem parseJV_step_num (f : Nat) (c : Char) (t : List Char)
    (hg : (jIsDigit c || c == '-') = true) :
    parseJV (f + 1) (c :: t)
      = some (.num (String.mk (jTakeNum (c :: t)).1), (jTakeNum (c :: t)).2) := by
  obtain ⟨hbr1, hbr2, hn, ht, hf, hq, hbk, hbc⟩ := numStart_not_brk hg
  have hws := numStart_not_ws hg
  have hg2 : (jIsDigit c || c = '-') = true := by
    rcases Bool.or_eq_true_iff.mp hg with h | h
    · simp [h]
    · simp [beq_iff_eq.mp h]
  simp only [parseJV]
  rw [jskipWs_not _ hws]
  simp [hn, ht, hf, hq, hbk, hbc, hg2]

theorem parseJV_num (lx : String) (hn : jNumWf lx = true) (f : Nat) (rest : List Char)
    (hr : jNumDelim rest = true) :
    parseJV (f + 1) (lx.data ++ rest) = some (.num lx, rest) := by
  match hlx : lx.data with
  | [] => simp [jNumWf, hlx] at hn
  | c :: cs =>
    simp only [jNumWf, hlx, Bool.and_eq_true, List.all_eq_true] at hn
    rw [List.cons_append, parseJV_step_num f c (cs ++ rest) hn.1]
    have hrun : jTakeNum (c :: (cs ++ rest)) = (c :: cs, rest) := by
      have h2 := @jTakeNum_run (c :: cs) (fun x hx => hn.2 x hx) _ hr
      rwa [List.cons_append] at h2
    rw [hrun, ← hlx]

theorem parseJList_step (f : Nat) (cs : List Char) :
    parseJList (f + 1) cs
      = (match parseJV f cs with
         | none => none
         | some (v, r) =>
           match jskipWs r with
           | ',' :: r1 =>
             (match parseJList f r1 with
              | some (vs, r2) => some (v :: vs, r2)
              | none => none)
           | ']' :: r1 => some ([v], r1)
           | _ => none) := rfl

theorem parseJMems_step (f : Nat) (cs : List Char) :
    parseJMems (f + 1) cs
      = (match jskipWs cs with
         | '"' :: r =>
           (match parseJStrA [] r with
            | none => none
            | some (k, r1) =>
              match jskipWs r1 with
              | ':' :: r2 =>
                (match parseJV f r2 with
                 | none => none
                 | some (v, r3) =>
                   match jskipWs r3 with
                   | ',' :: r4 =>
                     (match parseJMems f r4 with
                      | some (ms, r5) => some ((k, v) :: ms, r5)
                      | none => none)
                   | '\x7d' :: r4 => some ([(k, v)], r4)
                   | _ => none)
              | _ => none)
         | _ => none) := rfl

theorem parseJV_arrStep (e : Json) (es : List Json) (f : Nat) (rest : List Char)
    (hwe : e.wfb = true) :
    parseJV (f + 1) ('[' :: (serList (e :: es) ++ ']' :: rest))
      = (match parseJList f (serList (e :: es) ++ ']' :: rest) with
         | some (vs, r1) => some (.arr vs, r1)
         | none => none) := by
  obtain ⟨c, t, hser, hws, hbr, -⟩ := serJL_head e hwe
  have hcons : serList (e :: es) ++ ']' :: rest
      = c :: (t ++ serListT es ++ ']' :: rest) := by
    simp [serList, hser, List.append_assoc]
  have hstep : parseJV (f + 1) ('[' :: (serList (e :: es) ++ ']' :: rest))
      = (match jskipWs (serList (e :: es) ++ ']' :: rest) with
         | ']' :: r1 => some (.arr [], r1)
         | cs1 =>
           match parseJList f cs1 with
           | some (vs, r1) => some (.arr vs, r1)
           | none => none) := by
    rw [parseJV.eq_def]
    rfl
  rw [hstep, hcons, jskipWs_not _ hws]
  simp [hbr]

theorem parseJV_objStep (k : String) (v : Json) (ms : List (String × Json))
    (f : Nat) (rest : List Char) :
    parseJV (f + 1) ('\x7b' :: (serMems ((k, v) :: ms) ++ '\x7d' :: rest))
      = (match parseJMems f (serMems ((k, v) :: ms) ++ '\x7d' :: rest) with
         | some (ms1, r1) => some (.obj (mkObjAux [] ms1), r1)
         | none => none) := by
  have hcons : serMems ((k, v) :: ms) ++ '\x7d' :: rest
      = '"' :: (jEscStr k.data ++ ['"'] ++ (':' :: (serJL v ++ serMemsT ms))
          ++ '\x7d' :: rest) := by
    simp [serMems, serStrQ, List.append_assoc]
  have hstep : parseJV (f + 1) ('\x7b' :: (serMems ((k, v) :: ms) ++ '\x7d' :: rest))
      = (match jskipWs (serMems ((k, v) :: ms) ++ '\x7d' :: rest) with
         | '\x7d' :: r1 => some (.obj [], r1)
         | cs1 =>
           match parseJMems f cs1 with
           | some (ms1, r1) => some (.obj (mkObjAux [] ms1), r1)
           | none => none) := by
    rw [parseJV.eq_def]
    rfl
  rw [hstep, hcons, jskipWs_not _ (by decide)]
  simp

/-! ## Object assembly (`mkObjAux`) -/

theorem keyFree_mem {k : String} {l : List (String × α)} (h : keyFree k l = true)
    {p : String × α} (hp : p ∈ l) : p.1 ≠ k := by
  induction l with
  | nil => cases hp
  | cons hd t ih =>
    simp only [keyFree, Bool.and_eq_true, bne_iff_ne] at h
    rcases List.mem_cons.mp hp with rfl | hp2
    · exact h.1
    · exact ih h.2 hp2

theorem keyFree_append {k : String} (l1 l2 : List (String × α)) :
    keyFree k (l1 ++ l2) = (keyFree k l1 && keyFree k l2) := by
  induction l1 with
  | nil => simp [keyFree]
  | cons hd t ih =>
    obtain ⟨k0, v0⟩ := hd
    simp [keyFree, ih, Bool.and_assoc]

theorem jWfMems_vals {ms : List (String × Json)} (h : jWfMems ms = true) :
    ∀ p ∈ ms, p.2.wfb = true := by
  induction ms with
  | nil => simp
  | cons kv t ih =>
    obtain ⟨k, v⟩ := kv
    simp only [jWfMems, Bool.and_eq_true] at h
    intro p hp
    rcases List.mem_cons.mp hp with rfl | hp2
    · exact h.1.2
    · exact ih h.2 p hp2

theorem mkObjAux_acc (ms : List (String × Json)) : ∀ acc,
    (∀ p ∈ ms, keyFree p.1 acc = true) → jWfMems ms = true →
    mkObjAux acc ms = acc ++ ms := by
  induction ms with
  | nil => intro acc _ _; simp [mkObjAux]
  | cons kv t ih =>
    intro acc hacc hwf
    obtain ⟨k, v⟩ := kv
    simp only [jWfMems, Bool.and_eq_true] at hwf
    rw [mkObjAux, tmapAdd_keyFree (hacc (k, v) (by simp))]
    rw [ih (acc ++ [(k, v)]) ?_ hwf.2, List.append_assoc, List.singleton_append]
    intro p hp
    rw [keyFree_append]
    have h1 : keyFree p.1 acc = true := hacc p (List.mem_cons_of_mem _ hp)
    have h2 : k ≠ p.1 := Ne.symm (keyFree_mem hwf.1.1 hp)
    simp [h1, keyFree, h2]

theorem mkObjAux_self {ms : List (String × Json)} (h : jWfMems ms = true) :
    mkObjAux [] ms = ms := by
  simpa using mkObjAux_acc ms [] (fun p _ => rfl) h

theorem jWfMems_tmapAdd {l : List (String × Json)} {k : String} {v : Json}
    (hl : jWfMems l = true) (hv : v.wfb = true) : jWfMems (tmapAdd l k v) = true := by
  induction l with
  | nil => simp [tmapAdd, jWfMems, keyFree, hv]
  | cons kv t ih =>
    obtain ⟨k0, v0⟩ := kv
    simp only [jWfMems, Bool.and_eq_true] at hl
    by_cases hk : k0 = k
    · simp [tmapAdd, hk, jWfMems, hk ▸ hl.1.1, hv, hl.2]
    · simp [tmapAdd, hk, jWfMems, keyFree_tmapAdd hl.1.1 hk, hl.1.2, ih hl.2]

theorem jWfMems_mkObjAux (ms : List (String × Json)) : ∀ acc,
    jWfMems acc = true → (∀ p ∈ ms, p.2.wfb = true) →
    jWfMems (mkObjAux acc ms) = true := by
  induction ms with
  | nil => intro acc ha _; simpa [mkObjAux] using ha
  | cons kv t ih =>
    intro acc ha hv
    obtain ⟨k, v⟩ := kv
    simp only [mkObjAux]
    exact ih _ (jWfMems_tmapAdd ha (hv (k, v) (by simp)))
      (fun p hp => hv p (by simp [hp]))

/-! ## Serializer tail shapes and delimiters -/

theorem jNumDelim_cons {c : Char} (t : List Char) (h : jIsNumCh c = false) :
    jNumDelim (c :: t) = true := by
  simp [jNumDelim, h]

theorem serListT_cons (x : Json) (xs : List Json) :
    serListT (x :: xs) = ',' :: serList (x :: xs) := by
  simp [serListT, serList]

theorem serMemsT_cons (kv : String × Json) (ms : List (String × Json)) :
    serMemsT (kv :: ms) = ',' :: serMems (kv :: ms) := by
  obtain ⟨k, v⟩ := kv
  simp [serMemsT, serMems]

theorem jWfList_vals {es : List Json} (h : jWfList es = true) :
    ∀ e ∈ es, e.wfb = true := by
  induction es with
  | nil => simp
  | cons x t ih =>
    simp only [jWfList, Bool.and_eq_true] at h
    intro e he
    rcases List.mem_cons.mp he with rfl | he2
    · exact h.1
    · exact ih h.2 e he2

/-! ## The codec round-trip -/

mutual

theorem rtJV : ∀ (j : Json) (f : Nat) (rest : List Char), j.wfb = true →
    (serJL j).length < f → jNumDelim rest = true →
    parseJV f (serJL j ++ rest) = some (j, rest)
  | .null, f, rest, _, hf, _ => by
    cases f with
    | zero => exact absurd hf (Nat.not_lt_zero _)
    | succ f => rfl
  | .bool true, f, rest, _, hf, _ => by
    cases f with
    | zero => exact absurd hf (Nat.not_lt_zero _)
    | succ f => rfl
  | .bool false, f, rest, _, hf, _ => by
    cases f with
    | zero => exact absurd hf (Nat.not_lt_zero _)
    | succ f => rfl
  | .num lx, f, rest, hw, hf, hr => by
    cases f with
    | zero => exact absurd hf (Nat.not_lt_zero _)
    | succ f => exact parseJV_num lx hw f rest hr
  | .str s, f, rest, _, hf, _ => by
    cases f with
    | zero => exact absurd hf (Nat.not_lt_zero _)
    | succ f =>
      have harg : serJL (.str s) ++ rest = '"' :: (jEscStr s.data ++ ('"' :: rest)) := by
        simp [serJL, serStrQ]
      rw [harg]
      simp only [parseJV]
      rw [jskipWs_not _ (by decide)]
      simp [parseJStr_ser]
  | .arr [], f, rest, _, hf, _ => by
    cases f with
    | zero => exact absurd hf (Nat.not_lt_zero _)
    | succ f => rfl
  | .arr (e :: es2), f, rest, hw, hf, _ => by
    cases f with
    | zero => exact absurd hf (Nat.not_lt_zero _)
    | succ f =>
      have hwl : jWfList (e :: es2) = true := hw
      have hwe : e.wfb = true := jWfList_vals hwl e (by simp)
      have harr : serJL (.arr (e :: es2)) ++ rest
          = '[' :: (serList (e :: es2) ++ ']' :: rest) := by
        simp [serJL]
      have hfl : (serList (e :: es2)).length + 1 < f := by
        simp only [serJL, List.length_cons, List.length_append] at hf
        omega
      rw [harr, parseJV_arrStep e es2 f rest hwe,
          rtJList e es2 f rest (jWfList_vals hwl) hfl]
  | .obj [], f, rest, _, hf, _ => by
    cases f with
    | zero => exact absurd hf (Nat.not_lt_zero _)
    | succ f => rfl
  | .obj ((k, v) :: ms2), f, rest, hw, hf, _ => by
    cases f with
    | zero => exact absurd hf (Nat.not_lt_zero _)
    | succ f =>
      have hwm : jWfMems ((k, v) :: ms2) = true := hw
      have hobj : serJL (.obj ((k, v) :: ms2)) ++ rest
          = '\x7b' :: (serMems ((k, v) :: ms2) ++ '\x7d' :: rest) := by
        simp [serJL]
      have hfm : (serMems ((k, v) :: ms2)).length + 1 < f := by
        simp only [serJL, List.length_cons, List.length_append] at hf
        omega
      rw [hobj, parseJV_objStep k v ms2 f rest,
          rtJMems (k, v) ms2 f rest (jWfMems_vals hwm) hfm]
      simp [mkObjAux_self hwm]
termination_by j => sizeOf j

theorem rtJList : ∀ (e : Json) (es : List Json) (f : Nat) (rest : List Char),
    (∀ y ∈ e :: es, y.wfb = true) → (serList (e :: es)).length + 1 < f →
    parseJList f (serList (e :: es) ++ ']' :: rest) = some (e :: es, rest)
  | e, [], f, rest, hw, hf => by
    cases f with
    | zero => omega
    | succ f =>
      have harg : serList [e] ++ ']' :: rest = serJL e ++ ']' :: rest := by
        simp [serList, serListT]
      have hfe : (serJL e).length < f := by
        simp only [serList, serListT, List.append_nil, List.length_append] at hf
        omega
      have h1 : jskipWs (']' :: rest) = ']' :: rest := jskipWs_not _ (by decide)
      rw [harg, parseJList_step,
          rtJV e f (']' :: rest) (hw e (by simp)) hfe (jNumDelim_cons _ (by decide))]
      simp [h1]
  | e, x :: xs, f, rest, hw, hf => by
    cases f with
    | zero => omega
    | succ f =>
      have harg : serList (e :: x :: xs) ++ ']' :: rest
          = serJL e ++ (',' :: (serList (x :: xs) ++ ']' :: rest)) := by
        rw [serList, serListT_cons]
        simp [List.append_assoc]
      have hlen : (serList (e :: x :: xs)).length
          = (serJL e).length + 1 + (serList (x :: xs)).length := by
        rw [serList, serListT_cons]
        simp
        omega
      have hfe : (serJL e).length < f := by omega
      have hfx : (serList (x :: xs)).length + 1 < f := by omega
      have h1 : jskipWs (',' :: (serList (x :: xs) ++ ']' :: rest))
          = ',' :: (serList (x :: xs) ++ ']' :: rest) := jskipWs_not _ (by decide)
      rw [harg, parseJList_step,
          rtJV e f (',' :: (serList (x :: xs) ++ ']' :: rest)) (hw e (by simp)) hfe
            (jNumDelim_cons _ (by decide))]
      simp only [h1]
      rw [rtJList x xs f rest (fun y hy => hw y (List.mem_cons_of_mem _ hy)) hfx]
termination_by e es => sizeOf e + sizeOf es

theorem rtJMems : ∀ (kv : String × Json) (ms : List (String × Json)) (f : Nat)
    (rest : List Char), (∀ p ∈ kv :: ms, p.2.wfb = true) →
    (serMems (kv :: ms)).length + 1 < f →
    parseJMems f (serMems (kv :: ms) ++ '\x7d' :: rest) = some (kv :: ms, rest)
  | (k, v), [], f, rest, hw, hf => by
    cases f with
    | zero => omega
    | succ f =>
      have harg : serMems [(k, v)] ++ '\x7d' :: rest
          = '"' :: (jEscStr k.data ++ ('"' :: (':' :: (serJL v ++ '\x7d' :: rest)))) := by
        simp [serMems, serMemsT, serStrQ, List.append_assoc]
      have hfe : (serJL v).length < f := by
        simp only [serMems, serMemsT, serStrQ, List.append_nil, List.length_append,
          List.length_cons] at hf
        omega
      have h1 : jskipWs ('"' :: (jEscStr k.data ++ ('"' :: (':' :: (serJL v ++ '\x7d' :: rest)))))
          = '"' :: (jEscStr k.data ++ ('"' :: (':' :: (serJL v ++ '\x7d' :: rest)))) :=
        jskipWs_not _ (by decide)
      have h2 := parseJStr_ser k (':' :: (serJL v ++ '\x7d' :: rest))
      have h3 : jskipWs (':' :: (serJL v ++ '\x7d' :: rest))
          = ':' :: (serJL v ++ '\x7d' :: rest) := jskipWs_not _ (by decide)
      have h4 := rtJV v f ('\x7d' :: rest) (hw (k, v) (by simp)) hfe
        (jNumDelim_cons _ (by decide))
      have h5 : jskipWs ('\x7d' :: rest) = '\x7d' :: rest := jskipWs_not _ (by decide)
      rw [harg, parseJMems_step]
      simp [h1, h2, h3, h4, h5]
  | (k, v), (k2, v2) :: t, f, rest, hw, hf => by
    cases f with
    | zero => omega
    | succ f =>
      have harg : serMems ((k, v) :: (k2, v2) :: t) ++ '\x7d' :: rest
          = '"' :: (jEscStr k.data ++ ('"' :: (':' :: (serJL v
              ++ (',' :: (serMems ((k2, v2) :: t) ++ '\x7d' :: rest)))))) := by
        rw [serMems, serMemsT_cons]
        simp [serStrQ, List.append_assoc]
      have hlen : (serMems ((k, v) :: (k2, v2) :: t)).length
          = (jEscStr k.data).length + 3 + (serJL v).length + 1
            + (serMems ((k2, v2) :: t)).length := by
        rw [serMems, serMemsT_cons]
        simp [serStrQ]
        omega
      have hfe : (serJL v).length < f := by omega
      have hfm : (serMems ((k2, v2) :: t)).length + 1 < f := by omega
      have h1 : jskipWs ('"' :: (jEscStr k.data ++ ('"' :: (':' :: (serJL v
              ++ (',' :: (serMems ((k2, v2) :: t) ++ '\x7d' :: rest)))))))
          = '"' :: (jEscStr k.data ++ ('"' :: (':' :: (serJL v
              ++ (',' :: (serMems ((k2, v2) :: t) ++ '\x7d' :: rest)))))) :=
        jskipWs_not _ (by decide)
      have h2 := parseJStr_ser k
        (':' :: (serJL v ++ (',' :: (serMems ((k2, v2) :: t) ++ '\x7d' :: rest))))
      have h3 : jskipWs (':' :: (serJL v ++ (',' :: (serMems ((k2, v2) :: t) ++ '\x7d' :: rest))))
          = ':' :: (serJL v ++ (',' :: (serMems ((k2, v2) :: t) ++ '\x7d' :: rest))) :=
        jskipWs_not _ (by decide)
      have h4 := rtJV v f (',' :: (serMems ((k2, v2) :: t) ++ '\x7d' :: rest))
        (hw (k, v) (by simp)) hfe (jNumDelim_cons _ (by decide))
      have h5 : jskipWs (',' :: (serMems ((k2, v2) :: t) ++ '\x7d' :: rest))
          = ',' :: (serMems ((k2, v2) :: t) ++ '\x7d' :: rest) :=
        jskipWs_not _ (by decide)
      have h6 := rtJMems (k2, v2) t f rest
        (fun p hp => hw p (List.mem_cons_of_mem _ hp)) hfm
      rw [harg, parseJMems_step]
      simp [h1, h2, h3, h4, h5, h6]
termination_by kv ms => sizeOf kv + sizeOf ms

end

/-! ## Parser output is well-formed -/

theorem jNumWf_take {c : Char} (r : List Char)
    (hg : (jIsDigit c || decide (c = '-')) = true) :
    jNumWf (String.mk (jTakeNum (c :: r)).1) = true := by
  have hg2 : (jIsDigit c || c == '-') = true := by
    rcases Bool.or_eq_true_iff.mp hg with h | h
    · simp [h]
    · simp [of_decide_eq_true h]
  have hc : jIsNumCh c = true := numStart_numCh hg2
  have htake : (jTakeNum (c :: r)).1 = c :: (jTakeNum r).1 := by simp [jTakeNum, hc]
  rw [htake]
  show ((jIsDigit c || c == '-') && (c :: (jTakeNum r).1).all jIsNumCh) = true
  simp only [hg2, Bool.true_and, List.all_eq_true]
  intro x hx
  rcases List.mem_cons.mp hx with rfl | hx2
  · exact hc
  · exact jTakeNum_all r x hx2

mutual

theorem parseJV_wf : ∀ (f : Nat) (cs : List Char) (j : Json) (r : List Char),
    parseJV f cs = some (j, r) → j.wfb = true
  | 0, _, _, _, h => by simp [parseJV] at h
  | f + 1, cs, j, r, h => by
    simp only [parseJV] at h
    repeat' split at h
    all_goals first
      | contradiction
      | (simp only [Option.some.injEq, Prod.mk.injEq] at h
         obtain ⟨rfl, rfl⟩ := h
         first
           | rfl
           | exact jNumWf_take _ (by assumption)
           | exact parseJList_wf _ _ _ _ (by assumption)
           | exact jWfMems_mkObjAux _ [] rfl (parseJMems_wf _ _ _ _ (by assumption)))

theorem parseJList_wf : ∀ (f : Nat) (cs : List Char) (es : List Json) (r : List Char),
    parseJList f cs = some (es, r) → jWfList es = true
  | 0, _, _, _, h => by simp [parseJList] at h
  | f + 1, cs, es, r, h => by
    simp only [parseJList] at h
    repeat' split at h
    all_goals first
      | contradiction
      | (simp only [Option.some.injEq, Prod.mk.injEq] at h
         obtain ⟨rfl, rfl⟩ := h
         first
           | (show (_ && _) = true
              simp only [Bool.and_eq_true]
              exact ⟨parseJV_wf _ _ _ _ (by assumption),
                     parseJList_wf _ _ _ _ (by assumption)⟩)
           | (show (_ && _) = true
              simp only [Bool.and_eq_true]
              exact ⟨parseJV_wf _ _ _ _ (by assumption), rfl⟩))

theorem parseJMems_wf : ∀ (f : Nat) (cs : List Char) (ms : List (String × Json))
    (r : List Char), parseJMems f cs = some (ms, r) → ∀ p ∈ ms, p.2.wfb = true
  | 0, _, _, _, h => by simp [parseJMems] at h
  | f + 1, cs, ms, r, h => by
    simp only [parseJMems] at h
    repeat' split at h
    all_goals first
      | contradiction
      | (simp only [Option.some.injEq, Prod.mk.injEq] at h
         obtain ⟨rfl, rfl⟩ := h
         intro p hp
         first
           | (rcases List.mem_cons.mp hp with rfl | hp2
              · exact parseJV_wf _ _ _ _ (by assumption)
              · exact parseJMems_wf _ _ _ _ (by assumption) p hp2)
           | (rcases List.mem_cons.mp hp with rfl | hp2
              · exact parseJV_wf _ _ _ _ (by assumption)
              · cases hp2))

end

/-! ## Top-level codec facts -/

theorem parseJsonText_ser {j : Json} (hw : j.wfb = true) :
    parseJsonText (serJson j) = some j := by
  have h := rtJV j ((serJL j).length + 1) [] hw (by omega) rfl
  rw [List.append_nil] at h
  simp only [parseJsonText, serJson]
  rw [h]
  rfl

theorem parseJsonText_wf {s : String} {j : Json} (h : parseJsonText s = some j) :
    j.wfb = true := by
  simp only [parseJsonText] at h
  split at h
  · rename_i p heq
    split at h
    · cases h
      exact parseJV_wf _ _ _ _ heq
    · cases h
  · cases h

theorem deserializeObject_parse {s : String} {ms : List (String × Json)}
    (h : deserializeObject s = some ms) : parseJsonText s = some (.obj ms) := by
  simp only [deserializeObject] at h
  split at h
  · rename_i heq
    cases h
    exact heq
  · cases h

theorem deserializeObject_wf {s : String} {ms : List (String × Json)}
    (h : deserializeObject s = some ms) : jWfMems ms = true :=
  parseJsonText_wf (deserializeObject_parse h)

theorem deserializeObject_ser {ms : List (String × Json)} (hw : jWfMems ms = true) :
    deserializeObject (serJson (.obj ms)) = some ms := by
  rw [deserializeObject, @parseJsonText_ser (.obj ms) hw]

theorem deserializeValue_parse {s : String} {v : Json}
    (h : deserializeValue s = some v) :
    parseJsonText s = some v
      ∧ ((∃ ms, v = .obj ms) ∨ (∃ es, v = .arr es)) := by
  simp only [deserializeValue] at h
  split at h
  · rename_i heq
    cases h
    exact ⟨heq, .inl ⟨_, rfl⟩⟩
  · rename_i heq
    cases h
    exact ⟨heq, .inr ⟨_, rfl⟩⟩
  · cases h

theorem deserializeValue_wf {s : String} {v : Json}
    (h : deserializeValue s = some v) : v.wfb = true :=
  parseJsonText_wf (deserializeValue_parse h).1

theorem jsonSemEq_refl (a : String) : jsonSemEq a a := by
  cases h : parseJsonText a <;> simp [jsonSemEq, h]

theorem jsonSemEq_of_parse {a b : String} {v : Json}
    (ha : parseJsonText a = some v) (hb : parseJsonText b = some v) :
    jsonSemEq a b := by
  simp [jsonSemEq, ha, hb]

/-! ## The encoded message object -/

theorem encodeMCPFields_eq (m : FMCPMessage) :
    encodeMCPFields m
      = ("jsonrpc", Json.str "2.0")
        :: ((if m.Id ≠ "" then [("id", Json.str m.Id)] else [])
          ++ ((if m.Method ≠ "" then [("method", Json.str m.Method)] else [])
            ++ ((if m.Params ≠ "" then [("params", paramsVal m)] else [])
              ++ ((if m.Result ≠ "" then [("result", resultVal m)] else [])
                ++ (if m.Error ≠ "" then [("error", errorVal m)] else []))))) := by
  simp only [encodeMCPFields]
  by_cases h1 : m.Id = "" <;> by_cases h2 : m.Method = "" <;>
    by_cases h3 : m.Params = "" <;> by_cases h4 : m.Result = "" <;>
      by_cases h5 : m.Error = "" <;>
        simp [h1, h2, h3, h4, h5, tmapAdd]

theorem paramsVal_wf (m : FMCPMessage) : (paramsVal m).wfb = true := by
  simp only [paramsVal]
  split
  · rename_i heq
    exact deserializeObject_wf heq
  · rfl

theorem resultVal_wf (m : FMCPMessage) : (resultVal m).wfb = true := by
  simp only [resultVal]
  split
  · rename_i heq
    exact deserializeValue_wf heq
  · rfl

theorem errorVal_wf (m : FMCPMessage) : (errorVal m).wfb = true := by
  simp only [errorVal]
  split
  · rename_i heq
    exact deserializeObject_wf heq
  · rfl

theorem encodeMCPFields_wf (m : FMCPMessage) : jWfMems (encodeMCPFields m) = true := by
  have hp := paramsVal_wf m
  have hr := resultVal_wf m
  have he := errorVal_wf m
  rw [encodeMCPFields_eq]
  by_cases h1 : m.Id = "" <;> by_cases h2 : m.Method = "" <;>
    by_cases h3 : m.Params = "" <;> by_cases h4 : m.Result = "" <;>
      by_cases h5 : m.Error = "" <;>
        simp [h1, h2, h3, h4, h5, jWfMems, keyFree, Json.wfb, hp, hr, he]

theorem encode_find_id (m : FMCPMessage) :
    tmapFind (encodeMCPFields m) "id"
      = if m.Id ≠ "" then some (Json.str m.Id) else none := by
  by_cases h1 : m.Id = "" <;> by_cases h2 : m.Method = "" <;>
    by_cases h3 : m.Params = "" <;> by_cases h4 : m.Result = "" <;>
      by_cases h5 : m.Error = "" <;>
        simp [encodeMCPFields_eq, tmapFind, h1, h2, h3, h4, h5]

theorem encode_find_method (m : FMCPMessage) :
    tmapFind (encodeMCPFields m) "method"
      = if m.Method ≠ "" then some (Json.str m.Method) else none := by
  by_cases h1 : m.Id = "" <;> by_cases h2 : m.Method = "" <;>
    by_cases h3 : m.Params = "" <;> by_cases h4 : m.Result = "" <;>
      by_cases h5 : m.Error = "" <;>
        simp [encodeMCPFields_eq, tmapFind, h1, h2, h3, h4, h5]

theorem encode_find_params (m : FMCPMessage) :
    tmapFind (encodeMCPFields m) "params"
      = if m.Params ≠ "" then some (paramsVal m) else none := by
  by_cases h1 : m.Id = "" <;> by_cases h2 : m.Method = "" <;>
    by_cases h3 : m.Params = "" <;> by_cases h4 : m.Result = "" <;>
      by_cases h5 : m.Error = "" <;>
        simp [encodeMCPFields_eq, tmapFind, h1, h2, h3, h4, h5]

theorem encode_find_result (m : FMCPMessage) :
    tmapFind (encodeMCPFields m) "result"
      = if m.Result ≠ "" then some (resultVal m) else none := by
  by_cases h1 : m.Id = "" <;> by_cases h2 : m.Method = "" <;>
    by_cases h3 : m.Params = "" <;> by_cases h4 : m.Result = "" <;>
      by_cases h5 : m.Error = "" <;>
        simp [encodeMCPFields_eq, tmapFind, h1, h2, h3, h4, h5]

theorem encode_find_error (m : FMCPMessage) :
    tmapFind (encodeMCPFields m) "error"
      = if m.Error ≠ "" then some (errorVal m) else none := by
  by_cases h1 : m.Id = "" <;> by_cases h2 : m.Method = "" <;>
    by_cases h3 : m.Params = "" <;> by_cases h4 : m.Result = "" <;>
      by_cases h5 : m.Error = "" <;>
        simp [encodeMCPFields_eq, tmapFind, h1, h2, h3, h4, h5]

/-! ## Payload fields survive the decode-encode cycle semantically -/

theorem params_decode_semEq (m : FMCPMessage) :
    jsonSemEq (match tmapFind (encodeMCPFields m) "params" with
               | some (.obj o) => serJson (.obj o)
               | some (.str s) => s
               | _ => "") m.Params := by
  by_cases hp : m.Params = ""
  · rw [encode_find_params, if_neg (by simp [hp]), hp]
    exact jsonSemEq_refl ""
  · rw [encode_find_params, if_pos hp]
    rcases hd : deserializeObject m.Params with _ | po
    · have hv2 : paramsVal m = .str m.Params := by simp [paramsVal, hd]
      rw [hv2]
      exact jsonSemEq_refl m.Params
    · have hv2 : paramsVal m = .obj po := by simp [paramsVal, hd]
      rw [hv2]
      exact jsonSemEq_of_parse (parseJsonText_ser (deserializeObject_wf hd))
        (deserializeObject_parse hd)

theorem result_decode_semEq (m : FMCPMessage) :
    jsonSemEq (match tmapFind (encodeMCPFields m) "result" with
               | some (.obj o) => serJson (.obj o)
               | some (.arr a) => serJson (.arr a)
               | some v => jAsString v
               | none => "") m.Result := by
  by_cases hp : m.Result = ""
  · rw [encode_find_result, if_neg (by simp [hp]), hp]
    exact jsonSemEq_refl ""
  · rw [encode_find_result, if_pos hp]
    rcases hd : deserializeValue m.Result with _ | rv
    · have hv2 : resultVal m = .str m.Result := by simp [resultVal, hd]
      rw [hv2]
      exact jsonSemEq_refl m.Result
    · have hv2 : resultVal m = rv := by simp [resultVal, hd]
      obtain ⟨hparse, hshape⟩ := deserializeValue_parse hd
      have hsem : jsonSemEq (serJson rv) m.Result :=
        jsonSemEq_of_parse (parseJsonText_ser (deserializeValue_wf hd)) hparse
      rw [hv2]
      rcases hshape with ⟨ms2, rfl⟩ | ⟨es2, rfl⟩ <;> exact hsem

theorem error_decode_semEq (m : FMCPMessage) :
    jsonSemEq (match tmapFind (encodeMCPFields m) "error" with
               | some (.obj o) => serJson (.obj o)
               | some v => jAsString v
               | none => "") m.Error := by
  by_cases hp : m.Error = ""
  · rw [encode_find_error, if_neg (by simp [hp]), hp]
    exact jsonSemEq_refl ""
  · rw [encode_find_error, if_pos hp]
    rcases hd : deserializeObject m.Error with _ | eo
    · have hv2 : errorVal m = .str m.Error := by simp [errorVal, hd]
      rw [hv2]
      exact jsonSemEq_refl m.Error
    · have hv2 : errorVal m = .obj eo := by simp [errorVal, hd]
      rw [hv2]
      exact jsonSemEq_of_parse (parseJsonText_ser (deserializeObject_wf hd))
        (deserializeObject_parse hd)

/-- Decoding an encoded message, written out over the encoded field list. -/
theorem ParseMCPMessage_encode (m : FMCPMessage) :
    ParseMCPMessage (CreateJsonFromMCPMessage m) = some {
      Id := (tryGetStringField (encodeMCPFields m) "id").getD "",
      MsgType :=
        if hasField (encodeMCPFields m) "method" then
          (if (tryGetStringField (encodeMCPFields m) "id").getD "" ≠ "" then "request"
           else "notification")
        else if hasField (encodeMCPFields m) "result"
              || hasField (encodeMCPFields m) "error" then "response"
        else "unknown",
      Method := (tryGetStringField (encodeMCPFields m) "method").getD "",
      Params := match tmapFind (encodeMCPFields m) "params" with
                | some (.obj o) => serJson (.obj o)
                | some (.str s) => s
                | _ => "",
      Result := match tmapFind (encodeMCPFields m) "result" with
                | some (.obj o) => serJson (.obj o)
                | some (.arr a) => serJson (.arr a)
                | some v => jAsString v
                | none => "",
      Error := match tmapFind (encodeMCPFields m) "error" with
                | some (.obj o) => serJson (.obj o)
                | some v => jAsString v
                | none => "" } := by
  have hdes : deserializeObject (CreateJsonFromMCPMessage m)
      = some (encodeMCPFields m) := by
    rw [CreateJsonFromMCPMessage]
    exact deserializeObject_ser (encodeMCPFields_wf m)
  rw [ParseMCPMessage, hdes]

/-! ## Claim C2 -/

/-- C2: for every valid message m (kind `request`, `response` or
`notification` with the fields that kind requires), decoding the encoding of
m yields a message with the same id, the same method, the same kind, and
semantically equal `params`/`result`/`error` payloads — structural JSON
equality after re-parsing, not byte equality. -/
theorem C2_decode_encode_roundtrip (m : FMCPMessage) (hv : validMessage m) :
    ∃ m', ParseMCPMessage (CreateJsonFromMCPMessage m) = some m'
      ∧ m'.Id = m.Id ∧ m'.Method = m.Method ∧ m'.MsgType = m.MsgType
      ∧ jsonSemEq m'.Params m.Params ∧ jsonSemEq m'.Result m.Result
      ∧ jsonSemEq m'.Error m.Error := by
  have hid : (tryGetStringField (encodeMCPFields m) "id").getD "" = m.Id := by
    by_cases h : m.Id = "" <;>
      simp [tryGetStringField, encode_find_id, h, jTryGetString]
  have hme : (tryGetStringField (encodeMCPFields m) "method").getD "" = m.Method := by
    by_cases h : m.Method = "" <;>
      simp [tryGetStringField, encode_find_method, h, jTryGetString]
  have hty : (if hasField (encodeMCPFields m) "method" then
        (if (tryGetStringField (encodeMCPFields m) "id").getD "" ≠ "" then "request"
         else "notification")
      else if hasField (encodeMCPFields m) "result"
            || hasField (encodeMCPFields m) "error" then "response"
      else "unknown") = m.MsgType := by
    rcases hv with ⟨hT, hI, hM, hR, hE⟩ | ⟨hT, hI, hM, hR, hE⟩ | ⟨hT, hI, hM, hP, hRE⟩
    · have h1 : hasField (encodeMCPFields m) "method" = true := by
        simp [hasField, encode_find_method, hM]
      simp [h1, hid, hI, hT]
    · have h1 : hasField (encodeMCPFields m) "method" = true := by
        simp [hasField, encode_find_method, hM]
      simp [h1, hid, hI, hT]
    · have h1 : hasField (encodeMCPFields m) "method" = false := by
        simp [hasField, encode_find_method, hM]
      have h2 : (hasField (encodeMCPFields m) "result"
          || hasField (encodeMCPFields m) "error") = true := by
        rcases hRE with ⟨hR, hE⟩ | ⟨hR, hE⟩ <;>
          simp [hasField, encode_find_result, encode_find_error, hR, hE]
      simp [h1, h2, hT]
  exact ⟨_, ParseMCPMessage_encode m, hid, hme, hty, params_decode_semEq m,
    result_decode_semEq m, error_decode_semEq m⟩

/-- Witness for C2: a concrete request with an object params payload. -/
theorem C2_decode_encode_roundtrip_witness :
    validMessage { Id := "req_1_ab", MsgType := "request",
                   Method := "create_blueprint", Params := "\x7b\"name\":\"BP\"\x7d" }
    ∧ ∃ m', ParseMCPMessage (CreateJsonFromMCPMessage
        { Id := "req_1_ab", MsgType := "request",
          Method := "create_blueprint", Params := "\x7b\"name\":\"BP\"\x7d" }) = some m'
      ∧ m'.Id = "req_1_ab" ∧ m'.Method = "create_blueprint" ∧ m'.MsgType = "request"
      ∧ jsonSemEq m'.Params "\x7b\"name\":\"BP\"\x7d" ∧ jsonSemEq m'.Result ""
      ∧ jsonSemEq m'.Error "" :=
  ⟨by decide, C2_decode_encode_roundtrip
    { Id := "req_1_ab", MsgType := "request",
      Method := "create_blueprint", Params := "\x7b\"name\":\"BP\"\x7d" } (by decide)⟩

/-! ## More association-list lemmas for the sending path -/

theorem tmapRemove_tmapAdd (l : List (String × α)) (k : String) (v : α) :
    tmapRemove (tmapAdd l k v) k = tmapRemove l k := by
  induction l with
  | nil => simp [tmapAdd, tmapRemove]
  | cons hd t ih =>
    obtain ⟨k0, v0⟩ := hd
    by_cases hk : k0 = k
    · simp [tmapAdd, tmapRemove, hk]
    · simp [tmapAdd, tmapRemove, hk, ih]

theorem tmapRemove_absent {l : List (String × α)} {k : String}
    (h : keyFree k l = true) : tmapRemove l k = l := by
  induction l with
  | nil => rfl
  | cons hd t ih =>
    obtain ⟨k0, v0⟩ := hd
    simp only [keyFree, Bool.and_eq_true, bne_iff_ne] at h
    simp [tmapRemove, h.1, ih h.2]

theorem keyFree_of_find_none {k : String} {l : List (String × α)}
    (h : tmapFind l k = none) : keyFree k l = true := by
  induction l with
  | nil => rfl
  | cons hd t ih =>
    obtain ⟨k0, v0⟩ := hd
    by_cases hk : k0 = k
    · simp [tmapFind, hk] at h
    · simp only [tmapFind, hk, if_false] at h
      simp [keyFree, hk, ih h]

/-! ## Claim C4 -/

/-- C4: the delay `StartAutoReconnectTimer` arms for (0-indexed) attempt n is
exactly min(2·2^n, 60) seconds, and for attempts 0 through 7 the delays are
2, 4, 8, 16, 32, 60, 60, 60 seconds. -/
theorem C4_backoff_delays :
    (∀ (n : Nat) (c : MCPClientState), c.bAutoReconnectEnabled = true →
        c.worldAvailable = true → c.reconnectAttempts = n →
        (startAutoReconnectTimer c).autoReconnectTimer = some (min (2 * 2 ^ n) 60))
    ∧ (List.range 8).map reconnectDelaySeconds = [2, 4, 8, 16, 32, 60, 60, 60] := by
  constructor
  · intro n c h1 h2 h3
    simp [startAutoReconnectTimer, h1, h2, h3, reconnectDelaySeconds]
  · decide

/-- Witness for C4 at attempt 3 (delay 16 s). -/
theorem C4_backoff_delays_witness :
    ({ reconnectAttempts := 3 } : MCPClientState).bAutoReconnectEnabled = true
    ∧ (startAutoReconnectTimer
        { reconnectAttempts := 3 }).autoReconnectTimer = some 16 := by
  refine ⟨rfl, ?_⟩
  have h := C4_backoff_delays.1 3 { reconnectAttempts := 3 } rfl rfl rfl
  simpa using h

/-! ## Claim C6 -/

/-- C6: registering a pending request and then resolving the same id returns
the stored request — in particular the same method name — and removes it, so
a second resolve of that id returns NotFound: a response id is consumed at
most once. -/
theorem C6_register_resolve_once (pmap : List (String × FMCPMessage)) (id : String)
    (msg : FMCPMessage) (hnd : keysDistinct pmap = true) :
    (resolvePending (registerPending pmap id msg) id).1 = some msg
    ∧ ((resolvePending (registerPending pmap id msg) id).1.map FMCPMessage.Method)
        = some msg.Method
    ∧ (resolvePending (resolvePending (registerPending pmap id msg) id).2 id).1 = none := by
  have h1 : tmapFind (tmapAdd pmap id msg) id = some msg := tmapFind_add_self pmap id msg
  have h2 : keysDistinct (tmapAdd pmap id msg) = true := keysDistinct_tmapAdd hnd
  have h3 : tmapFind (tmapRemove (tmapAdd pmap id msg) id) id = none :=
    tmapFind_remove_self h2
  simp [resolvePending, registerPending, h1, h3]

/-- Witness for C6: register `req_1_abc` into an empty tracker and resolve twice. -/
theorem C6_register_resolve_once_witness :
    keysDistinct ([] : List (String × FMCPMessage)) = true
    ∧ (resolvePending (registerPending [] "req_1_abc"
          { Id := "req_1_abc", MsgType := "request", Method := "create_blueprint" })
        "req_1_abc").1
        = some { Id := "req_1_abc", MsgType := "request", Method := "create_blueprint" }
    ∧ (resolvePending (resolvePending (registerPending [] "req_1_abc"
          { Id := "req_1_abc", MsgType := "request", Method := "create_blueprint" })
        "req_1_abc").2 "req_1_abc").1 = none := by
  have h := C6_register_resolve_once [] "req_1_abc"
    { Id := "req_1_abc", MsgType := "request", Method := "create_blueprint" } (by decide)
  exact ⟨by decide, h.1, h.2.2⟩

/-! ## State-machine projection lemmas -/

theorem setConnectionState_attempts (s : MCPClientState) (ns : EMCPConnectionState)
    (msg : String) : (setConnectionState s ns msg).reconnectAttempts
      = s.reconnectAttempts := by
  by_cases h : s.currentConnectionState = ns <;> simp [setConnectionState, h]

theorem setConnectionState_timer (s : MCPClientState) (ns : EMCPConnectionState)
    (msg : String) : (setConnectionState s ns msg).autoReconnectTimer
      = s.autoReconnectTimer := by
  by_cases h : s.currentConnectionState = ns <;> simp [setConnectionState, h]

theorem setConnectionState_pending (s : MCPClientState) (ns : EMCPConnectionState)
    (msg : String) : (setConnectionState s ns msg).pendingRequests
      = s.pendingRequests := by
  by_cases h : s.currentConnectionState = ns <;> simp [setConnectionState, h]

theorem startAutoReconnectTimer_attempts (s : MCPClientState) :
    (startAutoReconnectTimer s).reconnectAttempts = s.reconnectAttempts := by
  rw [startAutoReconnectTimer]
  split <;> rfl

theorem connect_attempts (s : MCPClientState) :
    (connect s).1.reconnectAttempts = s.reconnectAttempts := by
  rw [connect]
  split_ifs <;>
    simp [setConnectionState_attempts]

/-! ## Claim C7 -/

theorem attemptReconnect_increment (e : MCPClientState)
    (he1 : e.currentConnectionState ≠ EMCPConnectionState.Connected)
    (he2 : e.currentConnectionState ≠ EMCPConnectionState.Connecting)
    (he3 : e.reconnectAttempts < maxReconnectAttempts) :
    (attemptReconnect e).reconnectAttempts = e.reconnectAttempts + 1 := by
  rw [attemptReconnect, if_neg (by simp [he1, he2]), if_neg (by omega)]
  by_cases hok : (connect { e with reconnectAttempts := e.reconnectAttempts + 1 }).2 = true
  · have h := connect_attempts { e with reconnectAttempts := e.reconnectAttempts + 1 }
    simp only [hok, if_true]
    simpa using h
  · have h := connect_attempts { e with reconnectAttempts := e.reconnectAttempts + 1 }
    simp [hok, startAutoReconnectTimer_attempts, h]

/-- C7: once the attempt counter has reached `MaxReconnectAttempts`, the state
is `Failed` and stays `Failed`: the timer callback at or over the cap only
(re)asserts `Failed` without scheduling a timer or touching the counter; the
terminal configuration is preserved by any number of timer events; neither
transport handler arms a timer at or over the cap; under the cap the counter
increments exactly when a retry fires; and an explicit `Connect` leaves the
terminal state into `Connecting`. -/
theorem C7_max_attempts_terminal (c d : MCPClientState) (hc : terminalFailed c)
    (hd1 : d.currentConnectionState ≠ EMCPConnectionState.Connected)
    (hd2 : d.currentConnectionState ≠ EMCPConnectionState.Connecting)
    (hd3 : maxReconnectAttempts ≤ d.reconnectAttempts) :
    ((attemptReconnect d).currentConnectionState = EMCPConnectionState.Failed
      ∧ (attemptReconnect d).autoReconnectTimer = d.autoReconnectTimer
      ∧ (attemptReconnect d).reconnectAttempts = d.reconnectAttempts)
    ∧ (∀ n, terminalFailed (timerFires^[n] c))
    ∧ (∀ e, (onWebSocketConnectionError d e).autoReconnectTimer = d.autoReconnectTimer)
    ∧ (∀ r, (onWebSocketClosed d r false).autoReconnectTimer = d.autoReconnectTimer)
    ∧ (∀ (e : MCPClientState) (dl : Nat),
        e.currentConnectionState ≠ EMCPConnectionState.Connected →
        e.currentConnectionState ≠ EMCPConnectionState.Connecting →
        e.reconnectAttempts < maxReconnectAttempts → e.autoReconnectTimer = some dl →
        (timerFires e).reconnectAttempts = e.reconnectAttempts + 1)
    ∧ (c.hasSettings = true → c.settingsValid = true →
        (connect c).1.currentConnectionState = EMCPConnectionState.Connecting
        ∧ (connect c).2 = true) := by
  obtain ⟨hcs, hct, hca⟩ := hc
  have hattempt : (attemptReconnect d).currentConnectionState = EMCPConnectionState.Failed
      ∧ (attemptReconnect d).autoReconnectTimer = d.autoReconnectTimer
      ∧ (attemptReconnect d).reconnectAttempts = d.reconnectAttempts := by
    rw [attemptReconnect, if_neg (by simp [hd1, hd2]), if_pos hd3]
    refine ⟨?_, setConnectionState_timer _ _ _, setConnectionState_attempts _ _ _⟩
    by_cases h : d.currentConnectionState = EMCPConnectionState.Failed <;>
      simp [setConnectionState, h]
  refine ⟨hattempt, ?_, ?_, ?_, ?_, ?_⟩
  · intro n
    induction n with
    | zero => exact ⟨hcs, hct, hca⟩
    | succ n ih =>
      rw [Function.iterate_succ_apply']
      obtain ⟨ih1, ih2, ih3⟩ := ih
      rw [timerFires, ih2]
      exact ⟨ih1, ih2, ih3⟩
  · intro e
    rw [onWebSocketConnectionError,
        if_neg (by
          rintro ⟨-, hlt⟩
          rw [setConnectionState_attempts] at hlt
          omega)]
    exact setConnectionState_timer _ _ _
  · intro r
    rw [onWebSocketClosed]
    by_cases hdd : d.currentConnectionState = EMCPConnectionState.Disconnected
    · simp [hdd]
    · simp only [hdd, if_false]
      rw [if_neg (by
        rintro ⟨-, -, hlt⟩
        rw [setConnectionState_attempts] at hlt
        simp only [MCPClientState.mk.injEq] at hlt
        omega)]
      rw [setConnectionState_timer]
  · intro e dl he1 he2 he3 het
    rw [timerFires, het]
    have h := attemptReconnect_increment { e with autoReconnectTimer := none }
      (by simpa using he1) (by simpa using he2) (by simpa using he3)
    simpa using h
  · intro h1 h2
    rw [connect, if_neg (by simp [h1]), if_neg (by simp [hcs]), if_neg (by simp [h2])]
    constructor
    · by_cases hws : c.webSocket = true <;>
        · simp only [hws, if_true, if_false]
          by_cases h : c.currentConnectionState = EMCPConnectionState.Connecting <;>
            simp [setConnectionState, h, hcs]
    · rfl

/-- Witness for C7 at the concrete terminal state (attempts = 10). -/
theorem C7_max_attempts_terminal_witness :
    terminalFailed
      { currentConnectionState := EMCPConnectionState.Failed, reconnectAttempts := 10 }
    ∧ (attemptReconnect
        { currentConnectionState := EMCPConnectionState.Failed,
          reconnectAttempts := 10 }).currentConnectionState = EMCPConnectionState.Failed
    ∧ ∀ n, terminalFailed (timerFires^[n]
        { currentConnectionState := EMCPConnectionState.Failed,
          reconnectAttempts := 10 }) := by
  have h := C7_max_attempts_terminal
    { currentConnectionState := EMCPConnectionState.Failed, reconnectAttempts := 10 }
    { currentConnectionState := EMCPConnectionState.Failed, reconnectAttempts := 10 }
    (by decide) (by decide) (by decide) (by decide)
  exact ⟨by decide, h.1.1, h.2.1⟩

/-! ## Claim C1 -/

/-- C1 as stated is false on the code: an unclean transport close while
`Connected` with two pending requests moves the state to `Failed` and arms the
reconnect timer, but `OnWebSocketClosed` never touches `PendingRequests` —
both entries survive the transition (only `Disconnect` purges). -/
theorem C1_counterexample :
    onWebSocketClosed
        { currentConnectionState := EMCPConnectionState.Connected, webSocket := true,
          pendingRequests :=
            [("req_1_a", { Id := "req_1_a", MsgType := "request",
                           Method := "create_blueprint" }),
             ("req_2_b", { Id := "req_2_b", MsgType := "request",
                           Method := "compile_blueprint" })] }
        "abnormal closure" false
      = { currentConnectionState := EMCPConnectionState.Failed,
          lastErrorMessage := "abnormal closure",
          autoReconnectTimer := some 2, webSocket := false,
          pendingRequests :=
            [("req_1_a", { Id := "req_1_a", MsgType := "request",
                           Method := "create_blueprint" }),
             ("req_2_b", { Id := "req_2_b", MsgType := "request",
                           Method := "compile_blueprint" })] }
    ∧ (onWebSocketClosed
        { currentConnectionState := EMCPConnectionState.Connected, webSocket := true,
          pendingRequests :=
            [("req_1_a", { Id := "req_1_a", MsgType := "request",
                           Method := "create_blueprint" }),
             ("req_2_b", { Id := "req_2_b", MsgType := "request",
                           Method := "compile_blueprint" })] }
        "abnormal closure" false).pendingRequests ≠ [] := by
  constructor
  · rfl
  · decide

/-- C1 (amended): on an unclean close while `Connected` the state becomes
`Failed`, the pending-request map is left exactly as it was (no purge), and a
reconnect timer with the backoff delay is armed when auto-reconnect is on, a
world is available and attempts remain; pending requests are purged — and the
state becomes `Disconnected` — only by an explicit `Disconnect`. -/
theorem C1_amended (c : MCPClientState) (reason : String)
    (h : c.currentConnectionState = EMCPConnectionState.Connected) :
    (onWebSocketClosed c reason false).currentConnectionState
        = EMCPConnectionState.Failed
    ∧ (onWebSocketClosed c reason false).pendingRequests = c.pendingRequests
    ∧ (c.bAutoReconnectEnabled = true → c.worldAvailable = true →
        c.reconnectAttempts < maxReconnectAttempts →
        (onWebSocketClosed c reason false).autoReconnectTimer
          = some (reconnectDelaySeconds c.reconnectAttempts))
    ∧ ∀ g, (disconnect c g).pendingRequests = []
        ∧ (disconnect c g).currentConnectionState = EMCPConnectionState.Disconnected := by
  by_cases hb : c.bAutoReconnectEnabled = true <;>
    by_cases ha : c.reconnectAttempts < maxReconnectAttempts <;>
      by_cases hw : c.worldAvailable = true <;>
        refine ⟨?_, ?_, fun h1 h2 h3 => ?_, fun g => ⟨?_, ?_⟩⟩ <;>
          (simp_all [onWebSocketClosed, setConnectionState, startAutoReconnectTimer,
            stopAutoReconnectTimer, disconnect, reconnectDelaySeconds] <;>
            (split <;> rfl))

/-- Witness for C1 (amended) at a `Connected` state with one pending request. -/
theorem C1_amended_witness :
    ({ currentConnectionState := EMCPConnectionState.Connected, webSocket := true,
       pendingRequests := [("req_1_a", { Id := "req_1_a", MsgType := "request", Method := "create_blueprint" })] } : MCPClientState).currentConnectionState
        = EMCPConnectionState.Connected
    ∧ (onWebSocketClosed
        { currentConnectionState := EMCPConnectionState.Connected, webSocket := true,
          pendingRequests := [("req_1_a", { Id := "req_1_a", MsgType := "request", Method := "create_blueprint" })] }
        "gone" false).pendingRequests
        = [("req_1_a", { Id := "req_1_a", MsgType := "request", Method := "create_blueprint" })]
    ∧ (disconnect
        { currentConnectionState := EMCPConnectionState.Connected, webSocket := true,
          pendingRequests := [("req_1_a", { Id := "req_1_a", MsgType := "request", Method := "create_blueprint" })] }
        true).pendingRequests = [] := by
  have h := C1_amended
    { currentConnectionState := EMCPConnectionState.Connected, webSocket := true,
      pendingRequests := [("req_1_a", { Id := "req_1_a", MsgType := "request", Method := "create_blueprint" })] }
    "gone" (by decide)
  exact ⟨by decide, h.2.1, (h.2.2.2 true).1⟩

/-! ## Claim C10 -/

theorem generateRequestId_ne (c : MCPClientState) (tok : String) :
    (generateRequestId c tok).2 ≠ "" := by
  simp only [generateRequestId]
  intro hcontra
  have hlen := congrArg String.length hcontra
  simp [String.length_append] at hlen
  exact absurd hlen.1.1.1 (by decide)

/-- C10 as stated is false on the code: with the raw send failing and a
caller-supplied request id that is already pending, `SendRequest` returns the
empty string but the map is NOT unchanged — the provisional `Remove` also
destroys the pre-existing entry under that id. -/
theorem C10_counterexample :
    sendRequest
        { currentConnectionState := EMCPConnectionState.Connected, webSocket := false,
          pendingRequests := [("req_1_a", { Id := "req_1_a", MsgType := "request", Method := "create_blueprint" })] }
        "set_property" "\x7b\x7d" "req_1_a" "tok"
      = ({ currentConnectionState := EMCPConnectionState.Connected, webSocket := false,
           pendingRequests := [] }, "")
    ∧ ([("req_1_a", { Id := "req_1_a", MsgType := "request", Method := "create_blueprint" })]
        : List (String × FMCPMessage)) ≠ [] := by
  constructor
  · rfl
  · decide

/-- C10 (amended): when not `Connected`, `SendRequest` returns the empty
string and changes nothing; on a raw-send failure it returns the empty string
and the pending map equals the previous map with the chosen id removed — so
it is unchanged whenever that id was not already pending; a non-empty id is
returned exactly on a successful send, and that id is then registered. -/
theorem C10_amended (c : MCPClientState) (method params requestId tok : String) :
    (c.currentConnectionState ≠ EMCPConnectionState.Connected →
      sendRequest c method params requestId tok = (c, ""))
    ∧ (∀ aid, aid = (if requestId = "" then (generateRequestId c tok).2 else requestId) →
        c.currentConnectionState = EMCPConnectionState.Connected →
        aid ≠ ""
        ∧ (c.webSocket = false →
            (sendRequest c method params requestId tok).2 = ""
            ∧ (sendRequest c method params requestId tok).1.pendingRequests
                = tmapRemove c.pendingRequests aid)
        ∧ (c.webSocket = false → keyFree aid c.pendingRequests = true →
            (sendRequest c method params requestId tok).1.pendingRequests
              = c.pendingRequests)
        ∧ (c.webSocket = true →
            (sendRequest c method params requestId tok).2 = aid
            ∧ tmapFind (sendRequest c method params requestId tok).1.pendingRequests aid
                = some { Id := aid, MsgType := "request", Method := method,
                         Params := params })) := by
  constructor
  · intro h
    simp [sendRequest, h]
  · intro aid haid hconn
    subst haid
    by_cases hreq : requestId = ""
    · subst hreq
      refine ⟨by simpa using generateRequestId_ne c tok,
        fun hws => ⟨?_, ?_⟩, fun hws hkf => ?_, fun hws => ⟨?_, ?_⟩⟩ <;>
        simp_all [sendRequest, sendRawMessageOk, generateRequestId,
          tmapRemove_tmapAdd, tmapFind_add_self] <;>
        exact tmapRemove_absent hkf
    · refine ⟨by simpa [hreq] using hreq,
        fun hws => ⟨?_, ?_⟩, fun hws hkf => ?_, fun hws => ⟨?_, ?_⟩⟩ <;>
        simp_all [sendRequest, sendRawMessageOk, generateRequestId,
          tmapRemove_tmapAdd, tmapFind_add_self] <;>
        exact tmapRemove_absent hkf

/-- Witness for C10: a fresh caller-supplied id against a `Connected` client
with a valid socket registers and returns it. -/
theorem C10_amended_witness :
    ("req_9_zz" : String)
        = (if ("req_9_zz" : String) = ""
           then (generateRequestId { webSocket := true, currentConnectionState := EMCPConnectionState.Connected } "zz").2
           else "req_9_zz")
    ∧ (sendRequest { webSocket := true, currentConnectionState := EMCPConnectionState.Connected }
        "compile_blueprint" "\x7b\x7d" "req_9_zz" "zz").2 = "req_9_zz"
    ∧ tmapFind (sendRequest { webSocket := true, currentConnectionState := EMCPConnectionState.Connected }
        "compile_blueprint" "\x7b\x7d" "req_9_zz" "zz").1.pendingRequests "req_9_zz"
      = some { Id := "req_9_zz", MsgType := "request", Method := "compile_blueprint", Params := "\x7b\x7d" } := by
  have h := (C10_amended { webSocket := true, currentConnectionState := EMCPConnectionState.Connected }
    "compile_blueprint" "\x7b\x7d" "req_9_zz" "zz").2 "req_9_zz" (by decide) (by decide)
  exact ⟨by decide, (h.2.2.2 rfl).1, (h.2.2.2 rfl).2⟩

/-! ## Claim C8 -/

/-- C8 as stated is false on the code: dispatching an unknown method does
yield a payload with `success:false`, but the error text reads
`Unknown blueprint command: <method>`, not `Unknown command: <method>`. -/
theorem C8_counterexample :
    ProcessBlueprintCommand
        (some ⟨fun p => p, fun p => p, fun p => p, fun p => p, fun p => p⟩)
        "unknown_cmd" "\x7b\x7d"
      = "\x7b\"success\":false,\"error\":\"Unknown blueprint command: unknown_cmd\"\x7d"
    ∧ deserializeObject
        "\x7b\"success\":false,\"error\":\"Unknown blueprint command: unknown_cmd\"\x7d"
      = some [("success", Json.bool false),
              ("error", Json.str "Unknown blueprint command: unknown_cmd")]
    ∧ ("Unknown blueprint command: unknown_cmd" : String)
        ≠ "Unknown command: unknown_cmd" := by
  refine ⟨rfl, rfl, by decide⟩

/-- C8 (amended): for every method outside the fixed command table the
dispatcher returns exactly the payload
`{"success":false,"error":"Unknown blueprint command: <method>"}` — a total
function of its inputs that never touches the connection state. -/
theorem C8_unknown_command (bm : MCPBlueprintManagerModel) (method params : String)
    (h : method ∉ blueprintCommandMethods) :
    ProcessBlueprintCommand (some bm) method params
      = "\x7b\"success\":false,\"error\":\"Unknown blueprint command: "
          ++ method ++ "\"\x7d" := by
  simp only [blueprintCommandMethods, List.mem_cons, List.not_mem_nil, or_false,
    not_or] at h
  obtain ⟨h1, h2, h3, h4, h5, h6⟩ := h
  simp [ProcessBlueprintCommand, h1, h2, h3, h4, h5, h6]

/-- Witness for C8 at the method `unknown_cmd`. -/
theorem C8_unknown_command_witness :
    ("unknown_cmd" : String) ∉ blueprintCommandMethods
    ∧ ProcessBlueprintCommand
        (some ⟨fun p => p, fun p => p, fun p => p, fun p => p, fun p => p⟩)
        "unknown_cmd" "\x7b\x7d"
      = "\x7b\"success\":false,\"error\":\"Unknown blueprint command: "
          ++ "unknown_cmd" ++ "\"\x7d" :=
  ⟨by decide, C8_unknown_command
    ⟨fun p => p, fun p => p, fun p => p, fun p => p, fun p => p⟩
    "unknown_cmd" "\x7b\x7d" (by decide)⟩

/-! ## Claim C5 -/

/-- C5 as stated is false on the code: classification is not purely by field
presence — `\x7b"jsonrpc":"2.0","method":"m","id":""\x7d` carries both a
method field and an id field, yet because the extracted id string is empty it
is classified `notification`, not `request`. -/
theorem C5_counterexample :
    deserializeObject "\x7b\"jsonrpc\":\"2.0\",\"method\":\"m\",\"id\":\"\"\x7d"
      = some [("jsonrpc", Json.str "2.0"), ("method", Json.str "m"),
              ("id", Json.str "")]
    ∧ hasField [("jsonrpc", Json.str "2.0"), ("method", Json.str "m"),
        ("id", Json.str "")] "id" = true
    ∧ (ParseMCPMessage "\x7b\"jsonrpc\":\"2.0\",\"method\":\"m\",\"id\":\"\"\x7d").map
        FMCPMessage.MsgType = some "notification"
    ∧ ("notification" : String) ≠ "request" := by
  refine ⟨rfl, rfl, rfl, by decide⟩

/-- C5 (amended): the decoded kind is classified from the wire object as
follows — a method field together with a nonempty extracted id string yields
`request`; a method field otherwise yields `notification`; no method but a
result or error field yields `response`; anything else yields `unknown`
(`classifyKindSpec` states this rule independently of the decoder). -/
theorem C5_classification (raw : String) (ms : List (String × Json))
    (h : deserializeObject raw = some ms) :
    (ParseMCPMessage raw).map FMCPMessage.MsgType = some (classifyKindSpec ms) := by
  simp only [ParseMCPMessage, h, classifyKindSpec, Option.map]

/-- Witness for C5 on a request-shaped wire object. -/
theorem C5_classification_witness :
    deserializeObject "\x7b\"jsonrpc\":\"2.0\",\"id\":\"7\",\"method\":\"m\"\x7d"
      = some [("jsonrpc", Json.str "2.0"), ("id", Json.str "7"),
              ("method", Json.str "m")]
    ∧ (ParseMCPMessage "\x7b\"jsonrpc\":\"2.0\",\"id\":\"7\",\"method\":\"m\"\x7d").map
        FMCPMessage.MsgType
      = some (classifyKindSpec [("jsonrpc", Json.str "2.0"), ("id", Json.str "7"),
          ("method", Json.str "m")]) :=
  ⟨rfl, C5_classification "\x7b\"jsonrpc\":\"2.0\",\"id\":\"7\",\"method\":\"m\"\x7d"
    [("jsonrpc", Json.str "2.0"), ("id", Json.str "7"), ("method", Json.str "m")] rfl⟩

/-! ## Claim C3 -/

theorem ParseMCPMessage_no_id_not_request {raw : String} {msg : FMCPMessage}
    (hp : ParseMCPMessage raw = some msg) (hid : msg.Id = "") :
    msg.MsgType ≠ "request" := by
  simp only [ParseMCPMessage] at hp
  split at hp
  · cases hp
  · simp only [Option.some.injEq] at hp
    subst hp
    dsimp only at hid ⊢
    split_ifs <;> simp_all

/-- C3 as stated is false on the code: an inbound command carrying a method
but no id is classified `notification`, and the command router requires the
decoded type `request`, so the handler is never executed (and, consistently
with the claim's second half, no response is produced). -/
theorem C3_counterexample :
    (ParseMCPMessage
        "\x7b\"jsonrpc\":\"2.0\",\"method\":\"create_blueprint\",\"params\":\x7b\x7d\x7d").map
        FMCPMessage.Method = some "create_blueprint"
    ∧ (ParseMCPMessage
        "\x7b\"jsonrpc\":\"2.0\",\"method\":\"create_blueprint\",\"params\":\x7b\x7d\x7d").map
        FMCPMessage.Id = some ""
    ∧ (processIncomingMessage
        { currentConnectionState := EMCPConnectionState.Connected, webSocket := true }
        (some ⟨fun p => p, fun p => p, fun p => p, fun p => p, fun p => p⟩)
        "\x7b\"jsonrpc\":\"2.0\",\"method\":\"create_blueprint\",\"params\":\x7b\x7d\x7d").2.dispatchedCommand
      = none
    ∧ (processIncomingMessage
        { currentConnectionState := EMCPConnectionState.Connected, webSocket := true }
        (some ⟨fun p => p, fun p => p, fun p => p, fun p => p, fun p => p⟩)
        "\x7b\"jsonrpc\":\"2.0\",\"method\":\"create_blueprint\",\"params\":\x7b\x7d\x7d").2.responseSent
      = none := by
  refine ⟨rfl, rfl, rfl, rfl⟩

/-- C3 (amended): an inbound command message without an id executes no
handler and produces no outbound response (it is not dispatched at all);
when the message decodes as a `request` (method plus nonempty id) naming a
table command, the handler runs and — if the raw send can go through — the
wrapped response bearing the same id is sent back. -/
theorem C3_no_id_no_dispatch (c : MCPClientState) (mgr : Option MCPBlueprintManagerModel)
    (raw : String) (msg : FMCPMessage) (hp : ParseMCPMessage raw = some msg) :
    (msg.Id = "" →
      (processIncomingMessage c mgr raw).2.dispatchedCommand = none
      ∧ (processIncomingMessage c mgr raw).2.responseSent = none)
    ∧ (msg.MsgType = "request" → msg.Method ∈ blueprintCommandMethods →
        (processIncomingMessage c mgr raw).2.dispatchedCommand
          = some (msg.Method, msg.Params)
        ∧ (msg.Id ≠ "" → sendRawMessageOk c = true →
            (processIncomingMessage c mgr raw).2.responseSent
              = some (buildCommandResponse msg.Id
                  (ProcessBlueprintCommand mgr msg.Method msg.Params)))) := by
  constructor
  · intro hid
    have hnr : msg.MsgType ≠ "request" := ParseMCPMessage_no_id_not_request hp hid
    simp [processIncomingMessage, hp, hnr]
  · intro hT hM
    have hne : msg.Method ≠ "" := by
      simp only [blueprintCommandMethods, List.mem_cons, List.not_mem_nil,
        or_false] at hM
      rcases hM with h | h | h | h | h | h <;> rw [h] <;> decide
    have hfound : ¬ (msg.MsgType = "response" ∧ msg.Id ≠ "") := by
      rintro ⟨hresp, -⟩
      rw [hT] at hresp
      exact absurd hresp (by decide)
    constructor
    · simp [processIncomingMessage, hp, hT, hne, hM, hfound]
    · intro hid hok
      simp [processIncomingMessage, hp, hT, hne, hM, hfound, hid, hok]

/-- Witness for C3 on a no-id `create_blueprint` command. -/
theorem C3_no_id_no_dispatch_witness :
    ParseMCPMessage
        "\x7b\"jsonrpc\":\"2.0\",\"method\":\"create_blueprint\",\"params\":\x7b\x7d\x7d"
      = some { Id := "", MsgType := "notification", Method := "create_blueprint",
               Params := "\x7b\x7d", Result := "", Error := "" }
    ∧ (processIncomingMessage
        { currentConnectionState := EMCPConnectionState.Connected, webSocket := true }
        none
        "\x7b\"jsonrpc\":\"2.0\",\"method\":\"create_blueprint\",\"params\":\x7b\x7d\x7d").2.dispatchedCommand
      = none := by
  have h := C3_no_id_no_dispatch
    { currentConnectionState := EMCPConnectionState.Connected, webSocket := true }
    none
    "\x7b\"jsonrpc\":\"2.0\",\"method\":\"create_blueprint\",\"params\":\x7b\x7d\x7d"
    { Id := "", MsgType := "notification", Method := "create_blueprint",
      Params := "\x7b\x7d", Result := "", Error := "" } rfl
  exact ⟨rfl, (h.1 rfl).1⟩

/-! ## Claim C9 -/

theorem jWfMems_find_wf {ms : List (String × Json)} {k : String} {v : Json}
    (hw : jWfMems ms = true) (hf : tmapFind ms k = some v) : v.wfb = true := by
  induction ms with
  | nil => cases hf
  | cons kv t ih =>
    obtain ⟨k0, v0⟩ := kv
    simp only [jWfMems, Bool.and_eq_true] at hw
    by_cases hk : k0 = k
    · simp only [tmapFind, hk, if_true] at hf
      cases hf
      exact hw.1.2
    · simp only [tmapFind, hk, if_false] at hf
      exact ih hw.2 hf

/-- C9 as stated is false on the code: a structured `params` payload that is
a JSON array is not accepted — the decoded message stores an empty string, so
the structured content is lost rather than preserved. -/
theorem C9_counterexample :
    deserializeObject
        "\x7b\"jsonrpc\":\"2.0\",\"id\":\"1\",\"method\":\"m\",\"params\":[1,2]\x7d"
      = some [("jsonrpc", Json.str "2.0"), ("id", Json.str "1"),
              ("method", Json.str "m"),
              ("params", Json.arr [Json.num "1", Json.num "2"])]
    ∧ (ParseMCPMessage
        "\x7b\"jsonrpc\":\"2.0\",\"id\":\"1\",\"method\":\"m\",\"params\":[1,2]\x7d").map
        FMCPMessage.Params = some ""
    ∧ parseJsonText "" = none := by
  refine ⟨rfl, rfl, rfl⟩

/-- C9 (amended): decoding stores `params` as a canonical re-serialization
when it is an object and verbatim when it is a bare string, but drops arrays;
`result` is re-serialized for both objects and arrays and converted by
`AsString` otherwise; `error` is re-serialized for objects, dropped for
arrays, and converted by `AsString` otherwise.  Every re-serialized payload
re-parses to exactly the wire value. -/
theorem C9_payload_storage (raw : String) (ms : List (String × Json))
    (msg : FMCPMessage) (h : deserializeObject raw = some ms)
    (hm : ParseMCPMessage raw = some msg) :
      (∀ o, tmapFind ms "params" = some (.obj o) →
          msg.Params = serJson (.obj o) ∧ parseJsonText msg.Params = some (.obj o))
      ∧ (∀ s, tmapFind ms "params" = some (.str s) → msg.Params = s)
      ∧ (∀ a, tmapFind ms "params" = some (.arr a) → msg.Params = "")
      ∧ (∀ o, tmapFind ms "result" = some (.obj o) →
          msg.Result = serJson (.obj o) ∧ parseJsonText msg.Result = some (.obj o))
      ∧ (∀ a, tmapFind ms "result" = some (.arr a) →
          msg.Result = serJson (.arr a) ∧ parseJsonText msg.Result = some (.arr a))
      ∧ (∀ s, tmapFind ms "result" = some (.str s) → msg.Result = s)
      ∧ (∀ o, tmapFind ms "error" = some (.obj o) →
          msg.Error = serJson (.obj o) ∧ parseJsonText msg.Error = some (.obj o))
      ∧ (∀ s, tmapFind ms "error" = some (.str s) → msg.Error = s)
      ∧ (∀ a, tmapFind ms "error" = some (.arr a) → msg.Error = "") := by
  have hwf : jWfMems ms = true := deserializeObject_wf h
  simp only [ParseMCPMessage, h, Option.some.injEq] at hm
  subst hm
  refine ⟨?_, ?_, ?_, ?_, ?_, ?_, ?_, ?_, ?_⟩
  · intro o ho
    have hov : (Json.obj o).wfb = true := jWfMems_find_wf hwf ho
    dsimp only
    rw [ho]
    exact ⟨rfl, parseJsonText_ser hov⟩
  · intro s hs
    dsimp only
    rw [hs]
  · intro a ha
    dsimp only
    rw [ha]
  · intro o ho
    have hov : (Json.obj o).wfb = true := jWfMems_find_wf hwf ho
    dsimp only
    rw [ho]
    exact ⟨rfl, parseJsonText_ser hov⟩
  · intro a ha
    have hav : (Json.arr a).wfb = true := jWfMems_find_wf hwf ha
    dsimp only
    rw [ha]
    exact ⟨rfl, parseJsonText_ser hav⟩
  · intro s hs
    dsimp only
    rw [hs]
    rfl
  · intro o ho
    have hov : (Json.obj o).wfb = true := jWfMems_find_wf hwf ho
    dsimp only
    rw [ho]
    exact ⟨rfl, parseJsonText_ser hov⟩
  · intro s hs
    dsimp only
    rw [hs]
    rfl
  · intro a ha
    dsimp only
    rw [ha]
    rfl

/-- Witness for C9 on a response whose `result` is an object. -/
theorem C9_payload_storage_witness :
    deserializeObject "\x7b\"jsonrpc\":\"2.0\",\"id\":\"1\",\"result\":\x7b\"ok\":true\x7d\x7d"
      = some [("jsonrpc", Json.str "2.0"), ("id", Json.str "1"),
              ("result", Json.obj [("ok", Json.bool true)])]
    ∧ ParseMCPMessage
        "\x7b\"jsonrpc\":\"2.0\",\"id\":\"1\",\"result\":\x7b\"ok\":true\x7d\x7d"
      = some { Id := "1", MsgType := "response", Method := "", Params := "",
               Result := "\x7b\"ok\":true\x7d", Error := "" }
    ∧ ({ Id := "1", MsgType := "response", Method := "", Params := "",
         Result := "\x7b\"ok\":true\x7d", Error := "" } : FMCPMessage).Result
        = serJson (.obj [("ok", Json.bool true)])
    ∧ parseJsonText "\x7b\"ok\":true\x7d" = some (.obj [("ok", Json.bool true)]) := by
  have h := C9_payload_storage
    "\x7b\"jsonrpc\":\"2.0\",\"id\":\"1\",\"result\":\x7b\"ok\":true\x7d\x7d"
    [("jsonrpc", Json.str "2.0"), ("id", Json.str "1"),
     ("result", Json.obj [("ok", Json.bool true)])]
    { Id := "1", MsgType := "response", Method := "", Params := "",
      Result := "\x7b\"ok\":true\x7d", Error := "" } rfl rfl
  exact ⟨rfl, rfl, h.2.2.2.1 [("ok", Json.bool true)] rfl⟩

end MCP
